import Mathlib

/-!
# Verification of the BSP collision / visibility core (db-reverie-engine)

Shallow embedding of `src/bsp_collision.rs` and the vis decoder of
`src/bsp_file.rs`.  The Rust code computes with `f32`; here all float
arithmetic is idealised as exact rational arithmetic (`ℚ`), which is faithful
for every property below: they only depend on sign tests, comparisons and
exact algebraic identities, never on rounding.  `f32::MIN` (the most negative
finite float, used by the code only as a "smaller than any computed fraction"
sentinel) is modelled as `-(2^128)`.  Rust slice indexing panics when out of
bounds; such panics, and the divergence of the tree walk on a malformed
(cyclic) node graph, are modelled by `Option`/fuel: `none` means the Rust
program panics or does not return.
-/

namespace Reverie

/-- Vector of three rationals, modelling `dbsdk_rs::math::Vector3` (3 × f32). -/
structure Vec3 where
  x : ℚ
  y : ℚ
  z : ℚ
deriving DecidableEq, Repr

/-- Componentwise addition. -/
def vadd (a b : Vec3) : Vec3 := ⟨a.x + b.x, a.y + b.y, a.z + b.z⟩

/-- Componentwise subtraction. -/
def vsub (a b : Vec3) : Vec3 := ⟨a.x - b.x, a.y - b.y, a.z - b.z⟩

/-- Scaling by a scalar (`Vector3 * f32`). -/
def vscale (a : Vec3) (s : ℚ) : Vec3 := ⟨a.x * s, a.y * s, a.z * s⟩

/-- The zero vector (`Vector3::zero()`). -/
def vzero : Vec3 := ⟨0, 0, 0⟩

/-- Dot product (`Vector3::dot`). -/
def dot (a b : Vec3) : ℚ := a.x * b.x + a.y * b.y + a.z * b.z

/-- Cross product (`Vector3::cross`). -/
def cross (a b : Vec3) : Vec3 :=
  ⟨a.y * b.z - a.z * b.y, a.z * b.x - a.x * b.z, a.x * b.y - a.y * b.x⟩

/-- Record of the Planes lump (`Plane` in `bsp_file.rs`). -/
structure Plane where
  normal : Vec3
  distance : ℚ
  plane_type : Nat
deriving DecidableEq, Repr

/-- Record of the Nodes lump (`Node`); children are sign-encoded (`< 0` is a
leaf reference `-(child) - 1`). Fields unused by the collision core are
omitted. -/
structure Node where
  plane : Nat
  front_child : Int
  back_child : Int
deriving DecidableEq, Repr

/-- Record of the Leaves lump (`Leaf`), collision-relevant fields only. -/
structure Leaf where
  contents : Nat
  first_leaf_brush : Nat
  num_leaf_brushes : Nat
deriving DecidableEq, Repr

/-- Record of the Brushes lump (`Brush`). -/
structure Brush where
  first_brush_side : Nat
  num_brush_sides : Nat
  contents : Nat
deriving DecidableEq, Repr

/-- Record of the BrushSides lump (`BrushSide`): one plane index. -/
structure BrushSide where
  plane : Nat
deriving DecidableEq, Repr

/-- Record of the Submodels lump (`SubModel`), only the head node is used by
the collision core. -/
structure SubModel where
  headnode : Nat
deriving DecidableEq, Repr

/-- Vis lump (`VisLump`): per-cluster byte offsets into the shared
run-length-encoded buffer, plus the buffer itself (bytes as `Nat`). -/
structure VisLump where
  clusters : List Nat
  vis_buffer : List Nat
deriving DecidableEq, Repr

/-- Loaded level data (`BspFile`), restricted to the lumps this core reads,
plus the rendering-only texture-info surface flags (`TexInfo.flags`: sky,
warp, translucency, no-draw), which are carried so that their irrelevance to
tracing can be stated. -/
structure BspFile where
  planes : List Plane
  nodes : List Node
  leaves : List Leaf
  leaf_brushes : List Nat
  brushes : List Brush
  brush_sides : List BrushSide
  submodels : List SubModel
  vis : VisLump
  tex_flags : List Nat
deriving DecidableEq, Repr

/-- Content masks from `bsp_file.rs`. -/
def CONTENTS_SOLID : Nat := 1

/-- Window contents bit. -/
def CONTENTS_WINDOW : Nat := 2

/-- `MASK_SOLID = CONTENTS_SOLID | CONTENTS_WINDOW`. -/
def MASK_SOLID : Nat := CONTENTS_SOLID ||| CONTENTS_WINDOW

/-- `DIST_EPSILON` from `bsp_collision.rs`. -/
def DIST_EPSILON : ℚ := 1 / 100

/-- Model of `f32::MIN`: below every fraction the code ever computes. -/
def qF32MIN : ℚ := -(2 ^ 128)

/-- Trace result (`Trace` in `bsp_collision.rs`). -/
structure Trace where
  all_solid : Bool
  start_solid : Bool
  fraction : ℚ
  end_pos : Vec3
  plane : Int
deriving DecidableEq, Repr

/-- Per-side loop state of `trace_brush` (its local variables). -/
structure BrushState where
  hitplane : Int
  enterfrac : ℚ
  exitfrac : ℚ
  startout : Bool
  getout : Bool
deriving DecidableEq, Repr

/-- Initial local state of `trace_brush`. -/
def initBrushState : BrushState :=
  { hitplane := -1, enterfrac := qF32MIN, exitfrac := 1, startout := false, getout := false }

/-- Effective clip distance of a brush side: `plane.distance`, Minkowski-offset
by the box extents when present (`trace_brush` lines 33–46). -/
def sideDist (plane : Plane) (box_extents : Option Vec3) : ℚ :=
  match box_extents with
  | some v =>
    let offs : Vec3 :=
      ⟨if plane.normal.x < 0 then v.x else -v.x,
       if plane.normal.y < 0 then v.y else -v.y,
       if plane.normal.z < 0 then v.z else -v.z⟩
    plane.distance - dot offs plane.normal
  | none => plane.distance

/-- Side loop of `trace_brush` (`for i in 0..brush.num_brush_sides`).
Outer `none` models an index panic; `some none` models the early
`return` (segment provably outside the brush); `some (some st)` is normal
loop completion. Iterates sides `first+i, first+i+1, …` with `k` iterations
left. -/
def trace_brush_loop (bsp : BspFile) (first : Nat) (start endp : Vec3)
    (box_extents : Option Vec3) : Nat → Nat → BrushState → Option (Option BrushState)
  | 0, _, st => some (some st)
  | k + 1, i, st =>
    match bsp.brush_sides.get? (first + i) with
    | none => none
    | some side =>
      match bsp.planes.get? side.plane with
      | none => none
      | some plane =>
        let dist := sideDist plane box_extents
        let d1 := dot start plane.normal - dist
        let d2 := dot endp plane.normal - dist
        let st1 : BrushState := { st with getout := if 0 < d2 then true else st.getout }
        let st2 : BrushState := { st1 with startout := if 0 < d1 then true else st1.startout }
        if 0 < d1 ∧ d1 ≤ d2 then some none
        else if d1 ≤ 0 ∧ d2 ≤ 0 then
          trace_brush_loop bsp first start endp box_extents k (i + 1) st2
        else if d2 < d1 then
          let f := (d1 - DIST_EPSILON) / (d1 - d2)
          let st3 : BrushState :=
            if st2.enterfrac < f then { st2 with enterfrac := f, hitplane := (side.plane : Int) }
            else st2
          trace_brush_loop bsp first start endp box_extents k (i + 1) st3
        else
          let f := (d1 + DIST_EPSILON) / (d1 - d2)
          let st3 : BrushState :=
            if f < st2.exitfrac then { st2 with exitfrac := f } else st2
          trace_brush_loop bsp first start endp box_extents k (i + 1) st3

/-- `trace_brush` of `bsp_collision.rs`: clips the segment (optionally swept by
a box) against one convex brush, updating the trace. -/
def trace_brush (bsp : BspFile) (brush_idx : Nat) (start endp : Vec3) (frac_adj : ℚ)
    (box_extents : Option Vec3) (trace : Trace) : Option Trace :=
  match bsp.brushes.get? brush_idx with
  | none => none
  | some brush =>
    if brush.num_brush_sides = 0 then some trace
    else
      match trace_brush_loop bsp brush.first_brush_side start endp box_extents
          brush.num_brush_sides 0 initBrushState with
      | none => none
      | some none => some trace
      | some (some st) =>
        if st.startout = false then
          some { trace with start_solid := true,
                            all_solid := if st.getout then trace.all_solid else true }
        else if st.enterfrac < st.exitfrac then
          if qF32MIN < st.enterfrac ∧ st.enterfrac < trace.fraction then
            let ef := if st.enterfrac < 0 then 0 else st.enterfrac
            some { trace with fraction := ef + frac_adj, plane := st.hitplane }
          else some trace
        else some trace

/-- Mutable state threaded through a single trace call: the per-call
visited-brush set `checked_brush` (modelled as a list), the trace being
updated, and a ghost log `clipLog` that records, in order, every brush index
on which `trace_brush` is invoked (it instruments the call sites and has no
effect on the computation). -/
structure TraceSt where
  checked : List Nat
  clipLog : List Nat
  trace : Trace
deriving DecidableEq, Repr

/-- Brush loop of `trace_leaf` (`for i in 0..leaf.num_leaf_brushes`), visiting
`leaf_brushes[first+i]` with `k` iterations left.  Note that a brush whose
contents do not intersect `content_mask` causes an immediate `return` in the
source (not a `continue`). -/
def trace_leaf_loop (bsp : BspFile) (first : Nat) (content_mask : Nat)
    (start endp : Vec3) (frac_adj : ℚ) (box_extents : Option Vec3) :
    Nat → Nat → TraceSt → Option TraceSt
  | 0, _, st => some st
  | k + 1, i, st =>
    match bsp.leaf_brushes.get? (first + i) with
    | none => none
    | some brush_idx =>
      if brush_idx ∈ st.checked then
        trace_leaf_loop bsp first content_mask start endp frac_adj box_extents k (i + 1) st
      else
        let st1 : TraceSt := { st with checked := brush_idx :: st.checked }
        match bsp.brushes.get? brush_idx with
        | none => none
        | some brush =>
          if brush.contents &&& content_mask = 0 then some st1
          else
            match trace_brush bsp brush_idx start endp frac_adj box_extents st1.trace with
            | none => none
            | some tr =>
              let st2 : TraceSt := { st1 with clipLog := st1.clipLog ++ [brush_idx], trace := tr }
              if tr.fraction ≤ 0 then some st2
              else trace_leaf_loop bsp first content_mask start endp frac_adj box_extents k (i + 1) st2

/-- `trace_leaf` of `bsp_collision.rs`: clips the trace against every brush of
one leaf, consulting and updating the visited-brush set. -/
def trace_leaf (bsp : BspFile) (leaf_index : Nat) (content_mask : Nat)
    (start endp : Vec3) (frac_adj : ℚ) (box_extents : Option Vec3)
    (st : TraceSt) : Option TraceSt :=
  match bsp.leaves.get? leaf_index with
  | none => none
  | some leaf =>
    if leaf.contents &&& content_mask = 0 then some st
    else trace_leaf_loop bsp leaf.first_leaf_brush content_mask start endp frac_adj box_extents
      leaf.num_leaf_brushes 0 st

/-- Signed start/end distances and box offset of a node's splitting plane
(`recursive_trace` lines 147–204): axis-aligned fast paths for plane types
0/1/2, general dot product otherwise. -/
def nodeDist (plane : Plane) (start endp : Vec3) (box_extents : Option Vec3) : ℚ × ℚ × ℚ :=
  if plane.plane_type = 0 then
    (start.x - plane.distance, endp.x - plane.distance,
     match box_extents with | some v => v.x | none => 0)
  else if plane.plane_type = 1 then
    (start.y - plane.distance, endp.y - plane.distance,
     match box_extents with | some v => v.y | none => 0)
  else if plane.plane_type = 2 then
    (start.z - plane.distance, endp.z - plane.distance,
     match box_extents with | some v => v.z | none => 0)
  else
    (dot plane.normal start - plane.distance, dot plane.normal endp - plane.distance,
     match box_extents with
     | some v => |v.x * plane.normal.x| + |v.y * plane.normal.y| + |v.z * plane.normal.z|
     | none => 0)

/-- `recursive_trace` of `bsp_collision.rs`: tree walk bounded by the current
best fraction.  `fuel` bounds the recursion depth; `none` models the
divergence / panic of the source on malformed node data. -/
def recursive_trace (bsp : BspFile) (content_mask : Nat) (p1f p2f : ℚ)
    (start endp : Vec3) (frac_adj : ℚ) (box_extents : Option Vec3) :
    Nat → Int → TraceSt → Option TraceSt
  | 0, _, _ => none
  | fuel + 1, node_idx, st =>
    if st.trace.fraction ≤ p1f then some st
    else if node_idx < 0 then
      trace_leaf bsp (-node_idx - 1).toNat content_mask start endp frac_adj box_extents st
    else
      match bsp.nodes.get? node_idx.toNat with
      | none => none
      | some node =>
        match bsp.planes.get? node.plane with
        | none => none
        | some plane =>
          let tto := nodeDist plane start endp box_extents
          let t1 := tto.1
          let t2 := tto.2.1
          let offset := tto.2.2
          if offset ≤ t1 ∧ offset ≤ t2 then
            recursive_trace bsp content_mask p1f p2f start endp frac_adj box_extents
              fuel node.front_child st
          else if t1 < -offset ∧ t2 < -offset then
            recursive_trace bsp content_mask p1f p2f start endp frac_adj box_extents
              fuel node.back_child st
          else
            match recursive_trace bsp content_mask p1f p2f start endp frac_adj box_extents
                fuel node.front_child st with
            | none => none
            | some st1 =>
              recursive_trace bsp content_mask p1f p2f start endp frac_adj box_extents
                fuel node.back_child st1

/-- Initial trace value built by `boxtrace` / `linetrace`. -/
def initTrace : Trace :=
  { all_solid := false, start_solid := false, fraction := 1, end_pos := vzero, plane := -1 }

/-- Recursion fuel for a trace: on an acyclic node graph every root-to-leaf
path visits distinct nodes, so `nodes.length + 1` levels always suffice. -/
def traceFuel (bsp : BspFile) : Nat := bsp.nodes.length + 1

/-- Final fix-up of `end_pos` shared by `boxtrace` and `linetrace`:
`end` when unobstructed, else `start + (end - start) * fraction`. -/
def finishTrace (start endp : Vec3) (t : Trace) : Trace :=
  if t.fraction = 1 then { t with end_pos := endp }
  else { t with end_pos := vadd start (vscale (vsub endp start) t.fraction) }

/-- `boxtrace`, instrumented: returns the whole per-call state (visited set and
clip log) alongside the trace.  The visited set and log start empty — they
are created fresh inside each call, exactly as the source builds a new
`HashSet` per trace. -/
def boxtraceSt (bsp : BspFile) (content_mask : Nat) (start endp : Vec3)
    (box_extents : Vec3) : Option TraceSt :=
  match bsp.submodels.get? 0 with
  | none => none
  | some sm =>
    match recursive_trace bsp content_mask 0 1 start endp 0 (some box_extents)
        (traceFuel bsp) (Int.ofNat sm.headnode) ⟨[], [], initTrace⟩ with
    | none => none
    | some st => some { st with trace := finishTrace start endp st.trace }

/-- `boxtrace` of `bsp_collision.rs`: sweeps a box through the world. -/
def boxtrace (bsp : BspFile) (content_mask : Nat) (start endp : Vec3)
    (box_extents : Vec3) : Option Trace :=
  (boxtraceSt bsp content_mask start endp box_extents).map TraceSt.trace

/-- `linetrace`, instrumented like `boxtraceSt` (identical to it except that no
box extents are supplied). -/
def linetraceSt (bsp : BspFile) (content_mask : Nat) (start endp : Vec3) : Option TraceSt :=
  match bsp.submodels.get? 0 with
  | none => none
  | some sm =>
    match recursive_trace bsp content_mask 0 1 start endp 0 none
        (traceFuel bsp) (Int.ofNat sm.headnode) ⟨[], [], initTrace⟩ with
    | none => none
    | some st => some { st with trace := finishTrace start endp st.trace }

/-- `linetrace` of `bsp_collision.rs`: traces a line through the world. -/
def linetrace (bsp : BspFile) (content_mask : Nat) (start endp : Vec3) : Option Trace :=
  (linetraceSt bsp content_mask start endp).map TraceSt.trace

/-- Loop of `calc_leaf_index` (`while cur_node >= 0`), fuelled.  The signed
distance `dot(position, normal) - distance` selects `front_child` when `≥ 0`,
else `back_child`; a negative reference decodes as leaf `-cur - 1`. -/
def calc_leaf_index_aux (bsp : BspFile) (position : Vec3) : Nat → Int → Option Int
  | 0, cur => if 0 ≤ cur then none else some (-cur - 1)
  | fuel + 1, cur =>
    if 0 ≤ cur then
      match bsp.nodes.get? cur.toNat with
      | none => none
      | some node =>
        match bsp.planes.get? node.plane with
        | none => none
        | some plane =>
          if 0 ≤ dot position plane.normal - plane.distance then
            calc_leaf_index_aux bsp position fuel node.front_child
          else
            calc_leaf_index_aux bsp position fuel node.back_child
    else some (-cur - 1)

/-- `calc_leaf_index` of `bsp_collision.rs`: resolves the leaf containing a
point, starting from node 0. -/
def calc_leaf_index (bsp : BspFile) (position : Vec3) : Option Int :=
  calc_leaf_index_aux bsp position (traceFuel bsp) 0

/-- Literal-byte inner loop of `unpack_vis` (`for bit in 0..8`): for each of
the `k` remaining bits (current bit index `bit`), if bit `bit` of byte `b` is
set, write `true` at cluster `c` (an out-of-range write is the Rust slice
panic, modelled `none`); `c` advances for every bit.  Returns the final
cluster cursor and buffer. -/
def visLiteral (b : Nat) : Nat → Nat → Nat → List Bool → Option (Nat × List Bool)
  | 0, _, c, out => some (c, out)
  | k + 1, bit, c, out =>
    if b &&& (1 <<< bit) ≠ 0 then
      if c < out.length then visLiteral b k (bit + 1) (c + 1) (out.set c true)
      else none
    else visLiteral b k (bit + 1) (c + 1) out

/-- Outer loop of `unpack_vis` (`while c < clusters.len()`): byte cursor `v`,
cluster cursor `c`.  A zero byte consumes the following count byte and skips
`8 × count` clusters; any other byte is a literal 8-bit mask.  Fuel bounds the
iteration count (the byte cursor strictly advances each round). -/
def unpack_vis_loop (buf : List Nat) (n : Nat) : Nat → Nat → Nat → List Bool → Option (List Bool)
  | 0, _, _, _ => none
  | fuel + 1, v, c, out =>
    if c < n then
      match buf.get? v with
      | none => none
      | some b =>
        if b = 0 then
          match buf.get? (v + 1) with
          | none => none
          | some cnt => unpack_vis_loop buf n fuel (v + 2) (c + 8 * cnt) out
        else
          match visLiteral b 8 0 c out with
          | none => none
          | some co => unpack_vis_loop buf n fuel (v + 1) co.1 co.2
    else some out

/-- `VisLump::unpack_vis` of `bsp_file.rs`: decodes one cluster's
run-length-encoded visibility row into the caller-supplied boolean buffer
(which is only ever written with `true`). -/
def unpack_vis (vis : VisLump) (cluster_index : Nat) (vis_info : List Bool) : Option (List Bool) :=
  match vis.clusters.get? cluster_index with
  | none => none
  | some offs =>
    unpack_vis_loop vis.vis_buffer vis.clusters.length (vis.vis_buffer.length + 1) offs 0 vis_info

/-- Inner `j` loop of `trace_move`'s velocity clip: does the clipped velocity
still drive into some other accumulated plane (`j != i` and
`dot(v, planes[j]) < 0`)? -/
def reentersOther (ps : List Vec3) (i : Nat) (v : Vec3) : Bool :=
  ps.enum.any (fun jp => decide (jp.1 ≠ i) && decide (dot v jp.2 < 0))

/-- Outer `i` loop of `trace_move`'s velocity clip (lines 371–391): clip the
velocity against plane `i` (`v -= n * (dot(v,n) * 1.01)`); if it no longer
drives into any other plane, break with `broke_i = true`.  Returns
`(broke_i, final velocity)`. -/
def clipVelLoop (ps : List Vec3) : Nat → Nat → Vec3 → Bool × Vec3
  | 0, _, v => (false, v)
  | k + 1, i, v =>
    match ps.get? i with
    | none => (false, v)
    | some p =>
      let backoff := dot v p * (101 / 100)
      let v1 := vsub v (vscale p backoff)
      if reentersOther ps i v1 then clipVelLoop ps k (i + 1) v1
      else (true, v1)

/-- Crease redirection of `trace_move` (lines 402–404): velocity becomes the
cross product of the two blocking-plane normals scaled by its dot product
with the current velocity. -/
def creaseVelocity (p0 p1 v : Vec3) : Vec3 :=
  let dir := cross p0 p1
  vscale dir (dot dir v)

/-- Iteration loop of `trace_move` (`for _iter in 0..NUM_ITERATIONS`), with
the loop state (position, velocity, remaining time, accumulated blocking
planes) passed explicitly.  The fixed-size plane array of the source is
modelled by the list of its first `num_planes` entries (at most 8 planes are
ever accumulated, so the array never overflows). -/
def trace_move_loop (bsp : BspFile) (box_extents : Vec3) :
    Nat → Vec3 → Vec3 → ℚ → List Vec3 → Option (Vec3 × Vec3)
  | 0, cur_pos, cur_vel, _, _ => some (cur_pos, cur_vel)
  | iter + 1, cur_pos, cur_vel, remaining, planes =>
    let endp := vadd cur_pos (vscale cur_vel remaining)
    match boxtrace bsp MASK_SOLID cur_pos endp box_extents with
    | none => none
    | some tr =>
      if tr.all_solid then some (cur_pos, vzero)
      else
        let pos1 := if 0 < tr.fraction then tr.end_pos else cur_pos
        let rem1 := if 0 < tr.fraction then remaining - remaining * tr.fraction else remaining
        let planes1 := if 0 < tr.fraction then [] else planes
        if tr.fraction = 1 then some (pos1, cur_vel)
        else
          match (if 0 ≤ tr.plane then bsp.planes.get? tr.plane.toNat else none) with
          | none => none
          | some plane =>
            let planes2 := planes1 ++ [plane.normal]
            let bv := clipVelLoop planes2 planes2.length 0 cur_vel
            if bv.1 then trace_move_loop bsp box_extents iter pos1 bv.2 rem1 planes2
            else
              match planes2 with
              | [p0, p1] =>
                trace_move_loop bsp box_extents iter pos1 (creaseVelocity p0 p1 bv.2) rem1 planes2
              | _ => some (pos1, bv.2)

/-- `trace_move` of `bsp_collision.rs`: iterative slide move
(`NUM_ITERATIONS = 8`), returning the new position and velocity. -/
def trace_move (bsp : BspFile) (start_pos velocity : Vec3) (delta : ℚ)
    (box_extents : Vec3) : Option (Vec3 × Vec3) :=
  trace_move_loop bsp box_extents 8 start_pos velocity delta []

/-- Concrete level: one splitting plane (x = 0) with two leaves, and one
solid brush bounded by the single half-space x ≤ 5 (Minkowski-offset to
x ≤ 6 for unit box extents).  Both leaves reference the same brush, as
brushes shared across leaves do in real maps. -/
def slabBsp : BspFile :=
  { planes := [⟨⟨1, 0, 0⟩, 0, 0⟩, ⟨⟨1, 0, 0⟩, 5, 0⟩],
    nodes := [⟨0, -1, -2⟩],
    leaves := [⟨1, 0, 1⟩, ⟨1, 1, 1⟩],
    leaf_brushes := [0, 0],
    brushes := [⟨0, 1, 1⟩],
    brush_sides := [⟨1⟩],
    submodels := [⟨0⟩],
    vis := ⟨[], []⟩,
    tex_flags := [0] }

/-- The same level as `slabBsp` with different rendering-only surface flags
(sky and no-draw bits set). -/
def slabBsp2 : BspFile := { slabBsp with tex_flags := [4, 128] }

/-- Two-leaf tree split by a single plane at distance 0 along axis X
(scenario (c) of the spec). -/
def twoLeafBsp : BspFile :=
  { planes := [⟨⟨1, 0, 0⟩, 0, 0⟩],
    nodes := [⟨0, -1, -2⟩],
    leaves := [], leaf_brushes := [], brushes := [], brush_sides := [],
    submodels := [], vis := ⟨[], []⟩, tex_flags := [] }

/-- Level for exercising `trace_leaf`: one leaf referencing first a brush
whose contents (4) do not intersect `MASK_SOLID`, then the solid brush
x ≤ 5 that the segment below would hit. -/
def c1Bsp : BspFile :=
  { planes := [⟨⟨1, 0, 0⟩, 5, 0⟩],
    nodes := [],
    leaves := [⟨1, 0, 2⟩],
    leaf_brushes := [1, 0],
    brushes := [⟨0, 1, 1⟩, ⟨0, 1, 4⟩],
    brush_sides := [⟨0⟩],
    submodels := [], vis := ⟨[], []⟩, tex_flags := [] }

/-- Vis lump of a 2-cluster level whose shared buffer is the single literal
byte `0x03` (scenario (b) of the spec). -/
def visTwo : VisLump := ⟨[0, 0], [3]⟩

/-- Adding a zero-scaled zero velocity moves nothing (exact in ℚ). -/
theorem vadd_vscale_vzero (p : Vec3) (r : ℚ) : vadd p (vscale vzero r) = p := by
  simp [vadd, vscale, vzero]

/-- Numeric value of the combined solid mask. -/
theorem MASK_SOLID_eq : MASK_SOLID = 3 := by decide

/-- Claim C6: in `trace_move`'s crease case the new velocity — the cross
product of the two accumulated blocking-plane normals scaled by its dot
product with the current velocity (`creaseVelocity`, exactly the expression
the loop assigns) — is orthogonal to both plane normals.  This holds exactly
in rational arithmetic, for all normals (non-parallelism is not even
needed: for parallel normals the redirected velocity is zero, which is also
orthogonal). -/
theorem C6_crease_orthogonal (p0 p1 v : Vec3) :
    dot (creaseVelocity p0 p1 v) p0 = 0 ∧ dot (creaseVelocity p0 p1 v) p1 = 0 := by
  constructor <;>
    · simp only [creaseVelocity, dot, cross, vscale]
      ring

/-- Counterexample to claim C1: in `c1Bsp`, leaf 0 references brush 1 (whose
contents 4 do not intersect `MASK_SOLID`) and then brush 0 (solid, and hit by
the segment).  `trace_leaf` returns as soon as it meets brush 1: the result
keeps `fraction = 1` and the clip log is empty, although clipping the
remaining brush 0 of that leaf would have produced fraction `499/1000`.  The
remaining brushes of the leaf are therefore not tested, refuting the claim. -/
theorem C1_trace_leaf_counterexample :
    trace_leaf c1Bsp 0 MASK_SOLID ⟨10, 0, 0⟩ ⟨0, 0, 0⟩ 0 none ⟨[], [], initTrace⟩ =
      some ⟨[1], [], initTrace⟩ ∧
    trace_brush c1Bsp 0 ⟨10, 0, 0⟩ ⟨0, 0, 0⟩ 0 none initTrace =
      some { initTrace with fraction := 499 / 1000, plane := 0 } := by
  constructor
  · decide
  · norm_num [trace_brush, trace_brush_loop, sideDist, dot, initBrushState, initTrace,
      qF32MIN, DIST_EPSILON, c1Bsp]

/-- Claim C1 as amended: when the brush loop of `trace_leaf` meets a brush
that is not yet in the visited set and whose contents do not intersect the
caller's content mask, it returns immediately with the trace unchanged — the
brush is recorded as visited but the remaining brushes of the leaf are
abandoned (not tested or clipped). -/
theorem C1_trace_leaf_amended (bsp : BspFile) (first content_mask : Nat)
    (start endp : Vec3) (frac_adj : ℚ) (ext : Option Vec3) (k i : Nat) (st : TraceSt)
    (brush_idx : Nat) (brush : Brush)
    (hlb : bsp.leaf_brushes.get? (first + i) = some brush_idx)
    (hnew : brush_idx ∉ st.checked)
    (hbr : bsp.brushes.get? brush_idx = some brush)
    (hmask : brush.contents &&& content_mask = 0) :
    trace_leaf_loop bsp first content_mask start endp frac_adj ext (k + 1) i st =
      some { st with checked := brush_idx :: st.checked } := by
  simp only [trace_leaf_loop, hlb, hbr]
  rw [if_neg hnew, if_pos hmask]

/-- Witness for the amended claim C1, at the concrete input of the
counterexample. -/
theorem C1_trace_leaf_amended_witness :
    trace_leaf_loop c1Bsp 0 MASK_SOLID ⟨10, 0, 0⟩ ⟨0, 0, 0⟩ 0 none 2 0 ⟨[], [], initTrace⟩ =
      some ⟨[1], [], initTrace⟩ :=
  C1_trace_leaf_amended c1Bsp 0 MASK_SOLID ⟨10, 0, 0⟩ ⟨0, 0, 0⟩ 0 none 1 0
    ⟨[], [], initTrace⟩ 1 ⟨0, 1, 4⟩ rfl (by decide) rfl (by decide)

/-- Claim C3: `calc_leaf_index` repeatedly takes the signed distance of the
point to the node's splitting plane, selecting the front child whenever the
distance is `≥ 0` (ties included) and the back child otherwise, and stops at
a negative child reference decoded as leaf `-(child) - 1`; being a pure
function it is deterministic.  On the two-leaf tree split by the plane x = 0,
the point (-1,0,0) resolves to the back leaf (leaf 1) while (1,0,0) and
(0,0,0) resolve to the front leaf (leaf 0). -/
theorem C3_calc_leaf_index :
    (∀ (bsp : BspFile) (p : Vec3) (fuel : Nat) (cur : Int) (node : Node) (plane : Plane),
      0 ≤ cur →
      bsp.nodes.get? cur.toNat = some node →
      bsp.planes.get? node.plane = some plane →
      calc_leaf_index_aux bsp p (fuel + 1) cur =
        calc_leaf_index_aux bsp p fuel
          (if 0 ≤ dot p plane.normal - plane.distance then node.front_child
           else node.back_child)) ∧
    (∀ (bsp : BspFile) (p : Vec3) (fuel : Nat) (cur : Int),
      cur < 0 → calc_leaf_index_aux bsp p fuel cur = some (-cur - 1)) ∧
    calc_leaf_index twoLeafBsp ⟨-1, 0, 0⟩ = some 1 ∧
    calc_leaf_index twoLeafBsp ⟨1, 0, 0⟩ = some 0 ∧
    calc_leaf_index twoLeafBsp ⟨0, 0, 0⟩ = some 0 := by
  refine ⟨?_, ?_, ?_, ?_, ?_⟩
  · intro bsp p fuel cur node plane hcur hnode hplane
    rw [calc_leaf_index_aux]
    simp only [hcur, if_pos, hnode, hplane]
    split <;> rfl
  · intro bsp p fuel cur hcur
    match fuel with
    | 0 => rw [calc_leaf_index_aux]; simp [not_le.mpr hcur]
    | fuel + 1 => rw [calc_leaf_index_aux]; simp [not_le.mpr hcur]
  · norm_num [calc_leaf_index, calc_leaf_index_aux, traceFuel, dot, twoLeafBsp]
  · norm_num [calc_leaf_index, calc_leaf_index_aux, traceFuel, dot, twoLeafBsp]
  · norm_num [calc_leaf_index, calc_leaf_index_aux, traceFuel, dot, twoLeafBsp]

/-- Witness for claim C3: the step rule applied at the root of the two-leaf
tree for the boundary point (0,0,0) (tie resolves to the front child −1), and
the leaf-decoding rule applied to child −2. -/
theorem C3_calc_leaf_index_witness :
    calc_leaf_index_aux twoLeafBsp ⟨0, 0, 0⟩ 2 0 =
      calc_leaf_index_aux twoLeafBsp ⟨0, 0, 0⟩ 1 (-1) ∧
    calc_leaf_index_aux twoLeafBsp ⟨0, 0, 0⟩ 1 (-2) = some 1 := by
  constructor
  · have h := C3_calc_leaf_index.1 twoLeafBsp ⟨0, 0, 0⟩ 1 0 ⟨0, -1, -2⟩ ⟨⟨1, 0, 0⟩, 0, 0⟩
      (by decide) rfl rfl
    norm_num [dot] at h
    exact h
  · have h := C3_calc_leaf_index.2.1 twoLeafBsp ⟨0, 0, 0⟩ 1 (-2) (by decide)
    norm_num at h
    exact h

/-- Bit test as the source writes it (`buf[v] & (1 << bit) != 0`) agrees with
`Nat.testBit`. -/
theorem and_one_shift_testBit (b bit : Nat) : b &&& (1 <<< bit) ≠ 0 ↔ b.testBit bit := by
  rw [Nat.shiftLeft_eq, one_mul, Nat.and_two_pow]
  cases h : b.testBit bit <;> simp [h, Nat.pow_eq_zero]

/-- Bounded existential over `range (k+1)` splits off its `j = 0` case. -/
theorem exists_range_succ_iff (k : Nat) (Q : Nat → Prop) :
    (∃ j ∈ Finset.range (k + 1), Q j) ↔ Q 0 ∨ ∃ j ∈ Finset.range k, Q (j + 1) := by
  constructor
  · rintro ⟨j, hj, hq⟩
    match j with
    | 0 => exact Or.inl hq
    | j + 1 =>
      refine Or.inr ⟨j, ?_, hq⟩
      simp only [Finset.mem_range] at hj ⊢
      omega
  · rintro (h | ⟨j, hj, hq⟩)
    · exact ⟨0, by simp, h⟩
    · refine ⟨j + 1, ?_, hq⟩
      simp only [Finset.mem_range] at hj ⊢
      omega

/-- Characterisation of the literal-byte loop of `unpack_vis`: starting at bit
`bit` of byte `b` with `k` bits left and cluster cursor `c`, a successful run
advances the cursor by `k` and sets exactly the clusters `c + j` whose bit
`bit + j` is set in `b`, leaving every other entry of the output unchanged. -/
theorem visLiteral_spec (b : Nat) :
    ∀ (k bit c : Nat) (out : List Bool) (co : Nat × List Bool),
      visLiteral b k bit c out = some co →
      co.1 = c + k ∧
      ∀ i, co.2.get? i =
        if ∃ j ∈ Finset.range k, i = c + j ∧ b.testBit (bit + j) then some true
        else out.get? i := by
  intro k
  induction k with
  | zero =>
    intro bit c out co h
    rw [visLiteral] at h
    simp only [Option.some.injEq] at h
    subst h
    refine ⟨rfl, fun i => ?_⟩
    rw [if_neg]
    rintro ⟨j, hj, -⟩
    simp at hj
  | succ k ih =>
    intro bit c out co h
    rw [visLiteral] at h
    have hcondsplit : ∀ i : Nat,
        (∃ j ∈ Finset.range (k + 1), i = c + j ∧ b.testBit (bit + j)) ↔
          ((i = c ∧ b.testBit bit) ∨
            ∃ j ∈ Finset.range k, i = (c + 1) + j ∧ b.testBit ((bit + 1) + j)) := by
      intro i
      rw [exists_range_succ_iff k (fun j => i = c + j ∧ b.testBit (bit + j))]
      have hc : ∀ j : Nat, (c + 1) + j = c + (j + 1) := fun j => by omega
      have hb2 : ∀ j : Nat, (bit + 1) + j = bit + (j + 1) := fun j => by omega
      simp only [hc, hb2, Nat.add_zero]
    by_cases hb : b &&& (1 <<< bit) ≠ 0
    · have htb : b.testBit bit := (and_one_shift_testBit b bit).mp hb
      rw [if_pos hb] at h
      by_cases hlen : c < out.length
      · rw [if_pos hlen] at h
        obtain ⟨h1, h2⟩ := ih (bit + 1) (c + 1) (out.set c true) co h
        refine ⟨by omega, fun i => ?_⟩
        rw [h2 i]
        by_cases hic : i = c
        · subst hic
          have hA : ¬ ∃ j ∈ Finset.range k, i = (i + 1) + j ∧ b.testBit ((bit + 1) + j) := by
            rintro ⟨j, -, hEq, -⟩
            omega
          have hB : ∃ j ∈ Finset.range (k + 1), i = i + j ∧ b.testBit (bit + j) :=
            ⟨0, by simp, by simp, by simpa using htb⟩
          rw [if_neg hA, if_pos hB, List.get?_set_of_lt' true out hlen, if_pos rfl]
        · have hset : (out.set c true).get? i = out.get? i := by
            rw [List.get?_set_of_lt' true out hlen, if_neg (fun hx => hic hx.symm)]
          by_cases hC : ∃ j ∈ Finset.range k, i = (c + 1) + j ∧ b.testBit ((bit + 1) + j)
          · rw [if_pos hC, if_pos ((hcondsplit i).mpr (Or.inr hC))]
          · rw [if_neg hC, hset, if_neg]
            rw [hcondsplit i]
            rintro (⟨hx, -⟩ | hx)
            · exact hic hx
            · exact hC hx
      · rw [if_neg hlen] at h
        exact absurd h (by simp)
    · have htb : ¬ b.testBit bit := by
        rw [← and_one_shift_testBit]
        simpa using hb
      rw [if_neg hb] at h
      obtain ⟨h1, h2⟩ := ih (bit + 1) (c + 1) out co h
      refine ⟨by omega, fun i => ?_⟩
      rw [h2 i]
      by_cases hC : ∃ j ∈ Finset.range k, i = (c + 1) + j ∧ b.testBit ((bit + 1) + j)
      · rw [if_pos hC, if_pos ((hcondsplit i).mpr (Or.inr hC))]
      · rw [if_neg hC, if_neg]
        rw [hcondsplit i]
        rintro (⟨-, hx⟩ | hx)
        · exact htb hx
        · exact hC hx

/-- Claim C4: `unpack_vis` starts at the queried cluster's byte offset and
decodes as follows.  A zero byte makes the loop consume the following count
byte and skip `8 × count` clusters, leaving the output buffer untouched over
the run (first conjunct: the loop state steps from `(v, c, out)` to
`(v + 2, c + 8 × count, out)`).  A non-zero byte is a literal mask whose set
bits mark the next 8 clusters visible in ascending order, all other entries
unchanged (second conjunct).  Decoding loops while `c < cluster count`.  In
particular the buffer `[0x03]` for a 2-cluster level marks exactly clusters 0
and 1 visible (third conjunct). -/
theorem C4_unpack_vis :
    (∀ (buf : List Nat) (n fuel v c cnt : Nat) (out : List Bool),
      c < n → buf.get? v = some 0 → buf.get? (v + 1) = some cnt →
      unpack_vis_loop buf n (fuel + 1) v c out =
        unpack_vis_loop buf n fuel (v + 2) (c + 8 * cnt) out) ∧
    (∀ (b c : Nat) (out : List Bool) (co : Nat × List Bool),
      b ≠ 0 →
      visLiteral b 8 0 c out = some co →
      co.1 = c + 8 ∧
      ∀ i, co.2.get? i =
        if ∃ j ∈ Finset.range 8, i = c + j ∧ b.testBit j then some true
        else out.get? i) ∧
    unpack_vis visTwo 0 [false, false] = some [true, true] := by
  refine ⟨?_, ?_, ?_⟩
  · intro buf n fuel v c cnt out hc hv hv1
    rw [List.get?_eq_getElem?] at hv hv1
    rw [unpack_vis_loop]
    simp [hc, hv, hv1]
  · intro b c out co hbz h
    obtain ⟨h1, h2⟩ := visLiteral_spec b 8 0 c out co h
    refine ⟨h1, fun i => ?_⟩
    have h3 := h2 i
    simpa only [Nat.zero_add] using h3
  · decide

/-- Witness for claim C4: the zero-byte rule stepping over the run `[0x00,
0x02]` (skipping 16 clusters), and the literal rule applied to the byte
`0x03` of `visTwo`. -/
theorem C4_unpack_vis_witness :
    unpack_vis_loop [0, 2] 100 5 0 0 [] = unpack_vis_loop [0, 2] 100 4 2 16 [] ∧
    (8 : Nat) = 0 + 8 := by
  constructor
  · exact C4_unpack_vis.1 [0, 2] 100 4 0 0 2 [] (by norm_num) rfl rfl
  · exact (C4_unpack_vis.2.1 3 0 [false, false] (8, [true, true]) (by norm_num) (by decide)).1

/-- Claim C5: whenever an iteration of `trace_move`'s slide loop gets a box
trace reporting `all_solid`, the loop stops at once and returns the current
position unchanged with zero velocity — an ordinary return value of the
embedding, not a panic. -/
theorem C5_all_solid_stops (bsp : BspFile) (box_extents : Vec3) (iter : Nat)
    (pos vel : Vec3) (rem : ℚ) (planes : List Vec3) (tr : Trace)
    (h : boxtrace bsp MASK_SOLID pos (vadd pos (vscale vel rem)) box_extents = some tr)
    (hs : tr.all_solid = true) :
    trace_move_loop bsp box_extents (iter + 1) pos vel rem planes = some (pos, vzero) := by
  rw [trace_move_loop]
  simp [h, hs]

/-- Witness for claim C5: starting fully inside the slab brush (box extents
included), the first iteration's box trace is `all_solid` and `trace_move`
returns the start position with zero velocity. -/
theorem C5_all_solid_stops_witness :
    trace_move_loop slabBsp ⟨1, 1, 1⟩ 8 ⟨0, 0, 0⟩ vzero 1 [] = some (⟨0, 0, 0⟩, vzero) :=
  C5_all_solid_stops slabBsp ⟨1, 1, 1⟩ 7 ⟨0, 0, 0⟩ vzero 1 []
    ⟨true, true, 1, ⟨0, 0, 0⟩, -1⟩
    (by norm_num [boxtrace, boxtraceSt, recursive_trace, trace_leaf, trace_leaf_loop,
      trace_brush, trace_brush_loop, sideDist, nodeDist, dot, initBrushState, initTrace,
      qF32MIN, DIST_EPSILON, traceFuel, finishTrace, vadd, vsub, vscale, vzero,
      MASK_SOLID_eq, slabBsp]) rfl

/-- On a zero-length segment the side loop of `trace_brush` either returns
early or completes without ever setting `startout`. -/
theorem trace_brush_loop_deg (bsp : BspFile) (first : Nat) (s : Vec3) (ext : Option Vec3) :
    ∀ (k i : Nat) (st : BrushState) (res : Option BrushState),
      trace_brush_loop bsp first s s ext k i st = some res →
      st.startout = false →
      res = none ∨ ∃ st2, res = some st2 ∧ st2.startout = false := by
  intro k
  induction k with
  | zero =>
    intro i st res h hso
    rw [trace_brush_loop] at h
    simp only [Option.some.injEq] at h
    subst h
    exact Or.inr ⟨st, rfl, hso⟩
  | succ k ih =>
    intro i st res h hso
    rw [trace_brush_loop] at h
    cases hbs : bsp.brush_sides.get? (first + i) with
    | none => rw [hbs] at h; exact absurd h (by simp)
    | some side =>
      rw [hbs] at h
      simp only [] at h
      cases hp : bsp.planes.get? side.plane with
      | none => rw [hp] at h; exact absurd h (by simp)
      | some plane =>
        rw [hp] at h
        simp only [] at h
        by_cases hd1 : 0 < dot s plane.normal - sideDist plane ext
        · rw [if_pos ⟨hd1, le_refl _⟩] at h
          simp only [Option.some.injEq] at h
          subst h
          exact Or.inl rfl
        · rw [if_neg (fun hx => hd1 hx.1), if_pos ⟨not_lt.mp hd1, not_lt.mp hd1⟩] at h
          simp only [if_neg hd1] at h
          exact ih (i + 1) _ res h hso

/-- On a zero-length segment `trace_brush` leaves fraction, hit plane and end
position unchanged (it can only set the solidity flags). -/
theorem trace_brush_deg (bsp : BspFile) (bidx : Nat) (s : Vec3) (fa : ℚ)
    (ext : Option Vec3) (tr tr2 : Trace) :
    trace_brush bsp bidx s s fa ext tr = some tr2 →
    tr2.fraction = tr.fraction ∧ tr2.plane = tr.plane ∧ tr2.end_pos = tr.end_pos := by
  intro h
  rw [trace_brush] at h
  cases hb : bsp.brushes.get? bidx with
  | none => rw [hb] at h; exact absurd h (by simp)
  | some brush =>
    rw [hb] at h
    simp only [] at h
    by_cases hn : brush.num_brush_sides = 0
    · rw [if_pos hn] at h
      simp only [Option.some.injEq] at h
      subst h
      exact ⟨rfl, rfl, rfl⟩
    · rw [if_neg hn] at h
      cases hloop : trace_brush_loop bsp brush.first_brush_side s s ext
          brush.num_brush_sides 0 initBrushState with
      | none => rw [hloop] at h; exact absurd h (by simp)
      | some res =>
        rw [hloop] at h
        rcases trace_brush_loop_deg bsp brush.first_brush_side s ext
            brush.num_brush_sides 0 initBrushState res hloop rfl with rfl | ⟨st2, rfl, hso⟩
        · simp only [Option.some.injEq] at h
          subst h
          exact ⟨rfl, rfl, rfl⟩
        · simp only [] at h
          rw [if_pos hso] at h
          simp only [Option.some.injEq] at h
          subst h
          exact ⟨rfl, rfl, rfl⟩

/-- On a zero-length segment the brush loop of `trace_leaf` preserves the
trace's fraction. -/
theorem trace_leaf_loop_deg (bsp : BspFile) (first mask : Nat) (s : Vec3) (fa : ℚ)
    (ext : Option Vec3) :
    ∀ (k i : Nat) (st st2 : TraceSt),
      trace_leaf_loop bsp first mask s s fa ext k i st = some st2 →
      st2.trace.fraction = st.trace.fraction := by
  intro k
  induction k with
  | zero =>
    intro i st st2 h
    rw [trace_leaf_loop] at h
    simp only [Option.some.injEq] at h
    subst h
    rfl
  | succ k ih =>
    intro i st st2 h
    rw [trace_leaf_loop] at h
    cases hlb : bsp.leaf_brushes.get? (first + i) with
    | none => rw [hlb] at h; exact absurd h (by simp)
    | some bidx =>
      rw [hlb] at h
      simp only [] at h
      by_cases hch : bidx ∈ st.checked
      · rw [if_pos hch] at h
        exact ih (i + 1) st st2 h
      · rw [if_neg hch] at h
        cases hbr : bsp.brushes.get? bidx with
        | none => rw [hbr] at h; exact absurd h (by simp)
        | some brush =>
          rw [hbr] at h
          simp only [] at h
          by_cases hmask : brush.contents &&& mask = 0
          · rw [if_pos hmask] at h
            simp only [Option.some.injEq] at h
            subst h
            rfl
          · rw [if_neg hmask] at h
            cases htb : trace_brush bsp bidx s s fa ext st.trace with
            | none => rw [htb] at h; exact absurd h (by simp)
            | some tr =>
              rw [htb] at h
              simp only [] at h
              have hfr := (trace_brush_deg bsp bidx s fa ext st.trace tr htb).1
              by_cases hle : tr.fraction ≤ 0
              · rw [if_pos hle] at h
                simp only [Option.some.injEq] at h
                subst h
                exact hfr
              · rw [if_neg hle] at h
                have h2 := ih (i + 1) _ st2 h
                rw [h2]
                exact hfr

/-- On a zero-length segment `trace_leaf` preserves the trace's fraction. -/
theorem trace_leaf_deg (bsp : BspFile) (leafIdx mask : Nat) (s : Vec3) (fa : ℚ)
    (ext : Option Vec3) (st st2 : TraceSt) :
    trace_leaf bsp leafIdx mask s s fa ext st = some st2 →
    st2.trace.fraction = st.trace.fraction := by
  intro h
  rw [trace_leaf] at h
  cases hlv : bsp.leaves.get? leafIdx with
  | none => rw [hlv] at h; exact absurd h (by simp)
  | some leaf =>
    rw [hlv] at h
    simp only [] at h
    by_cases hmask : leaf.contents &&& mask = 0
    · rw [if_pos hmask] at h
      simp only [Option.some.injEq] at h
      subst h
      rfl
    · rw [if_neg hmask] at h
      exact trace_leaf_loop_deg bsp leaf.first_leaf_brush mask s fa ext
        leaf.num_leaf_brushes 0 st st2 h

/-- On a zero-length segment the recursive tree walk preserves the trace's
fraction. -/
theorem recursive_trace_deg (bsp : BspFile) (mask : Nat) (p1f p2f : ℚ) (s : Vec3)
    (fa : ℚ) (ext : Option Vec3) :
    ∀ (fuel : Nat) (node : Int) (st st2 : TraceSt),
      recursive_trace bsp mask p1f p2f s s fa ext fuel node st = some st2 →
      st2.trace.fraction = st.trace.fraction := by
  intro fuel
  induction fuel with
  | zero =>
    intro node st st2 h
    rw [recursive_trace] at h
    exact absurd h (by simp)
  | succ fuel ih =>
    intro node st st2 h
    rw [recursive_trace] at h
    by_cases hle : st.trace.fraction ≤ p1f
    · rw [if_pos hle] at h
      simp only [Option.some.injEq] at h
      subst h
      rfl
    · rw [if_neg hle] at h
      by_cases hneg : node < 0
      · rw [if_pos hneg] at h
        exact trace_leaf_deg bsp (-node - 1).toNat mask s fa ext st st2 h
      · rw [if_neg hneg] at h
        cases hnd : bsp.nodes.get? node.toNat with
        | none => rw [hnd] at h; exact absurd h (by simp)
        | some nd =>
          rw [hnd] at h
          simp only [] at h
          cases hpl : bsp.planes.get? nd.plane with
          | none => rw [hpl] at h; exact absurd h (by simp)
          | some plane =>
            rw [hpl] at h
            simp only [] at h
            split at h
            · exact ih nd.front_child st st2 h
            · split at h
              · exact ih nd.back_child st st2 h
              · cases hfront : recursive_trace bsp mask p1f p2f s s fa ext fuel
                    nd.front_child st with
                | none => rw [hfront] at h; exact absurd h (by simp)
                | some st1 =>
                  rw [hfront] at h
                  simp only [] at h
                  have e1 := ih nd.front_child st st1 hfront
                  have e2 := ih nd.back_child st1 st2 h
                  rw [e2, e1]

/-- The state-level box trace of a zero-length segment reports fraction 1 and
end position equal to the start. -/
theorem boxtraceSt_self (bsp : BspFile) (mask : Nat) (s : Vec3) (ext : Vec3)
    (stf : TraceSt) :
    boxtraceSt bsp mask s s ext = some stf →
    stf.trace.fraction = 1 ∧ stf.trace.end_pos = s := by
  intro h
  rw [boxtraceSt] at h
  cases hsm : bsp.submodels.get? 0 with
  | none => rw [hsm] at h; exact absurd h (by simp)
  | some sm =>
    rw [hsm] at h
    simp only [] at h
    cases hrec : recursive_trace bsp mask 0 1 s s 0 (some ext) (traceFuel bsp)
        (Int.ofNat sm.headnode) ⟨[], [], initTrace⟩ with
    | none => rw [hrec] at h; exact absurd h (by simp)
    | some st1 =>
      rw [hrec] at h
      simp only [] at h
      have hfr : st1.trace.fraction = 1 :=
        recursive_trace_deg bsp mask 0 1 s 0 (some ext) (traceFuel bsp)
          (Int.ofNat sm.headnode) ⟨[], [], initTrace⟩ st1 hrec
      simp only [Option.some.injEq] at h
      subst h
      constructor
      · show (finishTrace s s st1.trace).fraction = 1
        rw [finishTrace, if_pos hfr]
        exact hfr
      · show (finishTrace s s st1.trace).end_pos = s
        rw [finishTrace, if_pos hfr]

/-- A box trace of a zero-length segment reports fraction 1 and end position
equal to the start. -/
theorem boxtrace_self (bsp : BspFile) (mask : Nat) (s : Vec3) (ext : Vec3) (tr : Trace) :
    boxtrace bsp mask s s ext = some tr → tr.fraction = 1 ∧ tr.end_pos = s := by
  intro h
  rw [boxtrace] at h
  cases hb : boxtraceSt bsp mask s s ext with
  | none => rw [hb] at h; exact absurd h (by simp)
  | some stf =>
    rw [hb] at h
    simp only [Option.map_some', Option.some.injEq] at h
    subst h
    exact boxtraceSt_self bsp mask s ext stf hb

/-- Claim C7: `trace_move` with zero velocity returns the start position and
zero velocity unchanged, whether or not the box starts inside solid geometry
(`some r` rules out the index-panic/divergence cases of a malformed level,
where the source itself would not return a value). -/
theorem C7_zero_velocity (bsp : BspFile) (start : Vec3) (delta : ℚ) (box_extents : Vec3)
    (r : Vec3 × Vec3)
    (h : trace_move bsp start vzero delta box_extents = some r) :
    r = (start, vzero) := by
  rw [trace_move, show (8 : Nat) = 7 + 1 from rfl, trace_move_loop,
    vadd_vscale_vzero] at h
  cases hb : boxtrace bsp MASK_SOLID start start box_extents with
  | none => rw [hb] at h; exact absurd h (by simp)
  | some tr =>
    rw [hb] at h
    simp only [] at h
    obtain ⟨hfr, hend⟩ := boxtrace_self bsp MASK_SOLID start box_extents tr hb
    by_cases has : tr.all_solid = true
    · rw [if_pos has] at h
      simp only [Option.some.injEq] at h
      exact h.symm
    · rw [if_neg has] at h
      rw [hfr, hend] at h
      norm_num at h
      exact h.symm

/-- Witness for claim C7: from just outside the slab brush, `trace_move` with
zero velocity returns the position and zero velocity. -/
theorem C7_zero_velocity_witness :
    trace_move slabBsp ⟨10, 0, 0⟩ vzero 1 ⟨1, 1, 1⟩ = some (⟨10, 0, 0⟩, vzero) := by
  obtain ⟨r, hr⟩ : ∃ r, trace_move slabBsp ⟨10, 0, 0⟩ vzero 1 ⟨1, 1, 1⟩ = some r :=
    ⟨(⟨10, 0, 0⟩, vzero), by norm_num [trace_move, trace_move_loop, boxtrace, boxtraceSt, recursive_trace,
      trace_leaf, trace_leaf_loop, trace_brush, trace_brush_loop, sideDist, nodeDist, dot,
      initBrushState, initTrace, qF32MIN, DIST_EPSILON, traceFuel, finishTrace, vadd, vsub,
      vscale, vzero, MASK_SOLID_eq, slabBsp]⟩
  rw [hr, C7_zero_velocity slabBsp ⟨10, 0, 0⟩ 1 ⟨1, 1, 1⟩ r hr]

/-- When the start point is inside every remaining offset plane, the side loop
of `trace_brush` completes normally (never takes the early return), leaves
`startout` false and the entry state untouched, and leaves `getout` untouched
whenever the end point is also inside every remaining plane. -/
theorem trace_brush_loop_inside (bsp : BspFile) (first : Nat) (s e : Vec3)
    (ext : Option Vec3) :
    ∀ (k i : Nat) (st : BrushState) (res : Option BrushState),
      trace_brush_loop bsp first s e ext k i st = some res →
      (∀ (j : Nat) (side : BrushSide) (plane : Plane), j < k →
        bsp.brush_sides.get? (first + i + j) = some side →
        bsp.planes.get? side.plane = some plane →
        dot s plane.normal - sideDist plane ext ≤ 0) →
      st.startout = false →
      ∃ st2, res = some st2 ∧ st2.startout = false ∧
        st2.enterfrac = st.enterfrac ∧ st2.hitplane = st.hitplane ∧
        ((∀ (j : Nat) (side : BrushSide) (plane : Plane), j < k →
          bsp.brush_sides.get? (first + i + j) = some side →
          bsp.planes.get? side.plane = some plane →
          dot e plane.normal - sideDist plane ext ≤ 0) →
          st2.getout = st.getout) := by
  intro k
  induction k with
  | zero =>
    intro i st res h h1 hso
    rw [trace_brush_loop] at h
    simp only [Option.some.injEq] at h
    subst h
    exact ⟨st, rfl, hso, rfl, rfl, fun _ => rfl⟩
  | succ k ih =>
    intro i st res h h1 hso
    rw [trace_brush_loop] at h
    cases hbs : bsp.brush_sides.get? (first + i) with
    | none => rw [hbs] at h; exact absurd h (by simp)
    | some side =>
      rw [hbs] at h
      simp only [] at h
      cases hp : bsp.planes.get? side.plane with
      | none => rw [hp] at h; exact absurd h (by simp)
      | some plane =>
        rw [hp] at h
        simp only [] at h
        have hd1 : dot s plane.normal - sideDist plane ext ≤ 0 :=
          h1 0 side plane (Nat.succ_pos k) (by simpa using hbs) hp
        rw [if_neg (fun hx => absurd hd1 (not_le.mpr hx.1))] at h
        have hshift : ∀ (j : Nat) (side2 : BrushSide) (plane2 : Plane), j < k →
            bsp.brush_sides.get? (first + (i + 1) + j) = some side2 →
            bsp.planes.get? side2.plane = some plane2 →
            dot s plane2.normal - sideDist plane2 ext ≤ 0 := by
          intro j side2 plane2 hj hs2 hp2
          refine h1 (j + 1) side2 plane2 (by omega) ?_ hp2
          rw [show first + i + (j + 1) = first + (i + 1) + j from by omega]
          exact hs2
        by_cases hd2 : dot e plane.normal - sideDist plane ext ≤ 0
        · rw [if_pos ⟨hd1, hd2⟩] at h
          simp only [if_neg (not_lt.mpr hd2), if_neg (not_lt.mpr hd1)] at h
          obtain ⟨st2, hres, hso2, hef, hhp, hget⟩ := ih (i + 1) _ res h hshift hso
          refine ⟨st2, hres, hso2, hef, hhp, fun h2 => ?_⟩
          refine hget ?_
          intro j side2 plane2 hj hs2 hp2
          refine h2 (j + 1) side2 plane2 (by omega) ?_ hp2
          rw [show first + i + (j + 1) = first + (i + 1) + j from by omega]
          exact hs2
        · rw [if_neg (fun hx => hd2 hx.2),
            if_neg (not_lt.mpr (le_of_lt (lt_of_le_of_lt hd1 (not_le.mp hd2))))] at h
          simp only [if_neg (not_lt.mpr hd1), if_pos (not_le.mp hd2)] at h
          obtain ⟨st2, hres, hso2, hef, hhp, -⟩ :=
            ih (i + 1) _ res h hshift (by split <;> exact hso)
          refine ⟨st2, hres, hso2, ?_, ?_, fun h2 => ?_⟩
          · rw [hef]
            split <;> rfl
          · rw [hhp]
            split <;> rfl
          · exact absurd (h2 0 side plane (Nat.succ_pos k) (by simpa using hbs) hp) hd2

/-- Claim C2: in `trace_brush`, for a brush with at least one side, if the
(Minkowski-offset) start point is not strictly outside any of the brush's
offset planes, `start_solid` is set; if additionally the end point is never
strictly outside a plane, `all_solid` is set as well and the trace's fraction
and hit plane are left unchanged. -/
theorem C2_trace_brush_solid (bsp : BspFile) (bidx : Nat) (brush : Brush)
    (s e : Vec3) (fa : ℚ) (ext : Option Vec3) (tr tr2 : Trace)
    (hbr : bsp.brushes.get? bidx = some brush)
    (hn : 0 < brush.num_brush_sides)
    (hstart : ∀ (j : Nat) (side : BrushSide) (plane : Plane),
      j < brush.num_brush_sides →
      bsp.brush_sides.get? (brush.first_brush_side + j) = some side →
      bsp.planes.get? side.plane = some plane →
      dot s plane.normal - sideDist plane ext ≤ 0)
    (h : trace_brush bsp bidx s e fa ext tr = some tr2) :
    tr2.start_solid = true ∧ tr2.fraction = tr.fraction ∧ tr2.plane = tr.plane ∧
      ((∀ (j : Nat) (side : BrushSide) (plane : Plane),
        j < brush.num_brush_sides →
        bsp.brush_sides.get? (brush.first_brush_side + j) = some side →
        bsp.planes.get? side.plane = some plane →
        dot e plane.normal - sideDist plane ext ≤ 0) →
        tr2.all_solid = true) := by
  rw [trace_brush, hbr] at h
  simp only [] at h
  rw [if_neg (Nat.pos_iff_ne_zero.mp hn)] at h
  cases hloop : trace_brush_loop bsp brush.first_brush_side s e ext
      brush.num_brush_sides 0 initBrushState with
  | none => rw [hloop] at h; exact absurd h (by simp)
  | some res =>
    rw [hloop] at h
    obtain ⟨st2, rfl, hso2, hef, hhp, hget⟩ :=
      trace_brush_loop_inside bsp brush.first_brush_side s e ext
        brush.num_brush_sides 0 initBrushState res hloop
        (fun j side plane hj hs2 hp2 => hstart j side plane hj (by simpa using hs2) hp2)
        rfl
    simp only [] at h
    rw [if_pos hso2] at h
    simp only [Option.some.injEq] at h
    subst h
    refine ⟨rfl, rfl, rfl, fun h2 => ?_⟩
    have hg : st2.getout = false :=
      hget (fun j side plane hj hs2 hp2 => h2 j side plane hj (by simpa using hs2) hp2)
    show (if st2.getout then tr.all_solid else true) = true
    rw [hg]
    simp

/-- Witness for claim C2: a unit box fully inside the slab brush (start and
end both inside the single offset plane) reports `start_solid` and
`all_solid` with the fraction and hit plane untouched. -/
theorem C2_trace_brush_solid_witness :
    trace_brush slabBsp 0 ⟨0, 0, 0⟩ ⟨1, 0, 0⟩ 0 (some ⟨1, 1, 1⟩) initTrace =
      some ⟨true, true, 1, vzero, -1⟩ ∧
    (Trace.mk true true 1 vzero (-1)).start_solid = true ∧
    (Trace.mk true true 1 vzero (-1)).fraction = initTrace.fraction ∧
    (Trace.mk true true 1 vzero (-1)).plane = initTrace.plane ∧
    (Trace.mk true true 1 vzero (-1)).all_solid = true := by
  have hrun : trace_brush slabBsp 0 ⟨0, 0, 0⟩ ⟨1, 0, 0⟩ 0 (some ⟨1, 1, 1⟩) initTrace =
      some ⟨true, true, 1, vzero, -1⟩ := by
    norm_num [trace_brush, trace_brush_loop, sideDist, dot, initBrushState, initTrace,
      qF32MIN, DIST_EPSILON, slabBsp]
  have hside : ∀ (j : Nat) (side : BrushSide) (plane : Plane), j < 1 →
      slabBsp.brush_sides.get? (0 + j) = some side →
      slabBsp.planes.get? side.plane = some plane →
      ∀ p : Vec3, p = ⟨0, 0, 0⟩ ∨ p = ⟨1, 0, 0⟩ →
      dot p plane.normal - sideDist plane (some ⟨1, 1, 1⟩) ≤ 0 := by
    intro j side plane hj hs2 hp2 p hp
    have hj0 : j = 0 := by omega
    subst hj0
    have hside2 : ({ plane := 1 } : BrushSide) = side := by
      simpa [slabBsp] using hs2
    subst hside2
    have hplane2 : ({ normal := ⟨1, 0, 0⟩, distance := 5, plane_type := 0 } : Plane) = plane := by
      simpa [slabBsp] using hp2
    subst hplane2
    rcases hp with rfl | rfl <;> norm_num [dot, sideDist]
  have h := C2_trace_brush_solid slabBsp 0 ⟨0, 1, 1⟩ ⟨0, 0, 0⟩ ⟨1, 0, 0⟩ 0
    (some ⟨1, 1, 1⟩) initTrace ⟨true, true, 1, vzero, -1⟩ (by decide) (by decide)
    (fun j side plane hj hs2 hp2 =>
      hside j side plane hj hs2 hp2 ⟨0, 0, 0⟩ (Or.inl rfl)) hrun
  exact ⟨hrun, h.1, h.2.1, h.2.2.1,
    h.2.2.2 (fun j side plane hj hs2 hp2 =>
      hside j side plane hj hs2 hp2 ⟨1, 0, 0⟩ (Or.inr rfl))⟩

/-- The brush loop of `trace_leaf` maintains the visited-set invariant: the
clip log stays duplicate-free and every logged brush is in the visited set
(each brush is added to the set at the moment it is first seen). -/
theorem trace_leaf_loop_nodup (bsp : BspFile) (first mask : Nat) (s e : Vec3) (fa : ℚ)
    (ext : Option Vec3) :
    ∀ (k i : Nat) (st st2 : TraceSt),
      trace_leaf_loop bsp first mask s e fa ext k i st = some st2 →
      st.clipLog.Nodup → (∀ b ∈ st.clipLog, b ∈ st.checked) →
      st2.clipLog.Nodup ∧ (∀ b ∈ st2.clipLog, b ∈ st2.checked) := by
  intro k
  induction k with
  | zero =>
    intro i st st2 h hnd hsub
    rw [trace_leaf_loop] at h
    simp only [Option.some.injEq] at h
    subst h
    exact ⟨hnd, hsub⟩
  | succ k ih =>
    intro i st st2 h hnd hsub
    rw [trace_leaf_loop] at h
    cases hlb : bsp.leaf_brushes.get? (first + i) with
    | none => rw [hlb] at h; exact absurd h (by simp)
    | some bidx =>
      rw [hlb] at h
      simp only [] at h
      by_cases hch : bidx ∈ st.checked
      · rw [if_pos hch] at h
        exact ih (i + 1) st st2 h hnd hsub
      · rw [if_neg hch] at h
        cases hbr : bsp.brushes.get? bidx with
        | none => rw [hbr] at h; exact absurd h (by simp)
        | some brush =>
          rw [hbr] at h
          simp only [] at h
          by_cases hmask : brush.contents &&& mask = 0
          · rw [if_pos hmask] at h
            simp only [Option.some.injEq] at h
            subst h
            exact ⟨hnd, fun b hb => List.mem_cons_of_mem bidx (hsub b hb)⟩
          · rw [if_neg hmask] at h
            cases htb : trace_brush bsp bidx s e fa ext st.trace with
            | none => rw [htb] at h; exact absurd h (by simp)
            | some tr =>
              rw [htb] at h
              simp only [] at h
              have hnd2 : (st.clipLog ++ [bidx]).Nodup := by
                rw [List.nodup_append]
                refine ⟨hnd, List.nodup_singleton bidx, fun b hb hb2 => ?_⟩
                have : b = bidx := List.mem_singleton.mp hb2
                subst this
                exact hch (hsub b hb)
              have hsub2 : ∀ b ∈ st.clipLog ++ [bidx], b ∈ bidx :: st.checked := by
                intro b hb
                rcases List.mem_append.mp hb with hb | hb
                · exact List.mem_cons_of_mem bidx (hsub b hb)
                · rw [List.mem_singleton.mp hb]
                  exact List.mem_cons_self bidx st.checked
              by_cases hle : tr.fraction ≤ 0
              · rw [if_pos hle] at h
                simp only [Option.some.injEq] at h
                subst h
                exact ⟨hnd2, hsub2⟩
              · rw [if_neg hle] at h
                exact ih (i + 1) _ st2 h hnd2 hsub2

/-- `trace_leaf` maintains the visited-set invariant. -/
theorem trace_leaf_nodup (bsp : BspFile) (leafIdx mask : Nat) (s e : Vec3) (fa : ℚ)
    (ext : Option Vec3) (st st2 : TraceSt) :
    trace_leaf bsp leafIdx mask s e fa ext st = some st2 →
    st.clipLog.Nodup → (∀ b ∈ st.clipLog, b ∈ st.checked) →
    st2.clipLog.Nodup ∧ (∀ b ∈ st2.clipLog, b ∈ st2.checked) := by
  intro h hnd hsub
  rw [trace_leaf] at h
  cases hlv : bsp.leaves.get? leafIdx with
  | none => rw [hlv] at h; exact absurd h (by simp)
  | some leaf =>
    rw [hlv] at h
    simp only [] at h
    by_cases hmask : leaf.contents &&& mask = 0
    · rw [if_pos hmask] at h
      simp only [Option.some.injEq] at h
      subst h
      exact ⟨hnd, hsub⟩
    · rw [if_neg hmask] at h
      exact trace_leaf_loop_nodup bsp leaf.first_leaf_brush mask s e fa ext
        leaf.num_leaf_brushes 0 st st2 h hnd hsub

/-- The recursive tree walk maintains the visited-set invariant. -/
theorem recursive_trace_nodup (bsp : BspFile) (mask : Nat) (p1f p2f : ℚ) (s e : Vec3)
    (fa : ℚ) (ext : Option Vec3) :
    ∀ (fuel : Nat) (node : Int) (st st2 : TraceSt),
      recursive_trace bsp mask p1f p2f s e fa ext fuel node st = some st2 →
      st.clipLog.Nodup → (∀ b ∈ st.clipLog, b ∈ st.checked) →
      st2.clipLog.Nodup ∧ (∀ b ∈ st2.clipLog, b ∈ st2.checked) := by
  intro fuel
  induction fuel with
  | zero =>
    intro node st st2 h
    rw [recursive_trace] at h
    exact absurd h (by simp)
  | succ fuel ih =>
    intro node st st2 h hnd hsub
    rw [recursive_trace] at h
    by_cases hle : st.trace.fraction ≤ p1f
    · rw [if_pos hle] at h
      simp only [Option.some.injEq] at h
      subst h
      exact ⟨hnd, hsub⟩
    · rw [if_neg hle] at h
      by_cases hneg : node < 0
      · rw [if_pos hneg] at h
        exact trace_leaf_nodup bsp (-node - 1).toNat mask s e fa ext st st2 h hnd hsub
      · rw [if_neg hneg] at h
        cases hnd2 : bsp.nodes.get? node.toNat with
        | none => rw [hnd2] at h; exact absurd h (by simp)
        | some nd =>
          rw [hnd2] at h
          simp only [] at h
          cases hpl : bsp.planes.get? nd.plane with
          | none => rw [hpl] at h; exact absurd h (by simp)
          | some plane =>
            rw [hpl] at h
            simp only [] at h
            split at h
            · exact ih nd.front_child st st2 h hnd hsub
            · split at h
              · exact ih nd.back_child st st2 h hnd hsub
              · cases hfront : recursive_trace bsp mask p1f p2f s e fa ext fuel
                    nd.front_child st with
                | none => rw [hfront] at h; exact absurd h (by simp)
                | some st1 =>
                  rw [hfront] at h
                  simp only [] at h
                  obtain ⟨h1, h2⟩ := ih nd.front_child st st1 hfront hnd hsub
                  exact ih nd.back_child st1 st2 h h1 h2

/-- Claim C8: within one `boxtrace` or `linetrace` call, every brush index is
clipped by `trace_brush` at most once (the clip log of the instrumented trace
is duplicate-free), even when a brush is referenced from several visited
leaves; the visited set and log are created empty inside each call, so no
visited-brush state can leak between independent traces. -/
theorem C8_brushes_clipped_once (bsp : BspFile) (mask : Nat) (s e : Vec3) (ext : Vec3)
    (stB stL : TraceSt) :
    (boxtraceSt bsp mask s e ext = some stB → stB.clipLog.Nodup) ∧
    (linetraceSt bsp mask s e = some stL → stL.clipLog.Nodup) := by
  constructor
  · intro h
    rw [boxtraceSt] at h
    cases hsm : bsp.submodels.get? 0 with
    | none => rw [hsm] at h; exact absurd h (by simp)
    | some sm =>
      rw [hsm] at h
      simp only [] at h
      cases hrec : recursive_trace bsp mask 0 1 s e 0 (some ext) (traceFuel bsp)
          (Int.ofNat sm.headnode) ⟨[], [], initTrace⟩ with
      | none => rw [hrec] at h; exact absurd h (by simp)
      | some st1 =>
        rw [hrec] at h
        simp only [Option.some.injEq] at h
        subst h
        exact (recursive_trace_nodup bsp mask 0 1 s e 0 (some ext) (traceFuel bsp)
          (Int.ofNat sm.headnode) ⟨[], [], initTrace⟩ st1 hrec
          List.nodup_nil (by simp)).1
  · intro h
    rw [linetraceSt] at h
    cases hsm : bsp.submodels.get? 0 with
    | none => rw [hsm] at h; exact absurd h (by simp)
    | some sm =>
      rw [hsm] at h
      simp only [] at h
      cases hrec : recursive_trace bsp mask 0 1 s e 0 none (traceFuel bsp)
          (Int.ofNat sm.headnode) ⟨[], [], initTrace⟩ with
      | none => rw [hrec] at h; exact absurd h (by simp)
      | some st1 =>
        rw [hrec] at h
        simp only [Option.some.injEq] at h
        subst h
        exact (recursive_trace_nodup bsp mask 0 1 s e 0 none (traceFuel bsp)
          (Int.ofNat sm.headnode) ⟨[], [], initTrace⟩ st1 hrec
          List.nodup_nil (by simp)).1

set_option maxHeartbeats 2000000 in
/-- Concrete run shared by witnesses: the box trace through the slab world
visits both leaves, which share brush 0; the brush is clipped exactly once
(clip log `[0]`), the trace stops at fraction 399/1000 against plane 1. -/
theorem slab_boxtraceSt_eval :
    boxtraceSt slabBsp 3 ⟨10, 0, 0⟩ ⟨0, 0, 0⟩ ⟨1, 1, 1⟩ =
      some ⟨[0], [0], ⟨false, false, 399 / 1000, ⟨601 / 100, 0, 0⟩, 1⟩⟩ := by
  norm_num [boxtraceSt, recursive_trace, trace_leaf, trace_leaf_loop, trace_brush,
    trace_brush_loop, sideDist, nodeDist, dot, initBrushState, initTrace, qF32MIN,
    DIST_EPSILON, traceFuel, finishTrace, vadd, vsub, vscale, slabBsp]

/-- Witness for claim C8: in the slab world both visited leaves reference
brush 0, and the resulting clip log `[0]` is duplicate-free. -/
theorem C8_brushes_clipped_once_witness :
    (TraceSt.mk [0] [0] ⟨false, false, 399 / 1000, ⟨601 / 100, 0, 0⟩, 1⟩).clipLog.Nodup :=
  (C8_brushes_clipped_once slabBsp 3 ⟨10, 0, 0⟩ ⟨0, 0, 0⟩ ⟨1, 1, 1⟩
    ⟨[0], [0], ⟨false, false, 399 / 1000, ⟨601 / 100, 0, 0⟩, 1⟩⟩
    ⟨[0], [0], ⟨false, false, 399 / 1000, ⟨601 / 100, 0, 0⟩, 1⟩⟩).1 slab_boxtraceSt_eval

/-- In the side loop of `trace_brush`, `enterfrac` never drops below the
`f32::MIN` sentinel, and whenever it has risen strictly above the sentinel the
recorded `hitplane` is a valid index into the plane table (provided every
brush side references a valid plane).  The two are updated together, so the
pair `(enterfrac, hitplane)` is consistent at every step. -/
theorem trace_brush_loop_hitplane (bsp : BspFile)
    (hv : ∀ side ∈ bsp.brush_sides, side.plane < bsp.planes.length)
    (first : Nat) (s e : Vec3) (ext : Option Vec3) :
    ∀ (k i : Nat) (st : BrushState) (res : Option BrushState) (st2 : BrushState),
      trace_brush_loop bsp first s e ext k i st = some res →
      res = some st2 →
      qF32MIN ≤ st.enterfrac →
      (qF32MIN < st.enterfrac → 0 ≤ st.hitplane ∧ st.hitplane.toNat < bsp.planes.length) →
      qF32MIN ≤ st2.enterfrac ∧
        (qF32MIN < st2.enterfrac →
          0 ≤ st2.hitplane ∧ st2.hitplane.toNat < bsp.planes.length) := by
  intro k
  induction k with
  | zero =>
    intro i st res st2 h hres hle hcond
    rw [trace_brush_loop] at h
    simp only [Option.some.injEq] at h
    subst h
    simp only [Option.some.injEq] at hres
    subst hres
    exact ⟨hle, hcond⟩
  | succ k ih =>
    intro i st res st2 h hres hle hcond
    rw [trace_brush_loop] at h
    cases hbs : bsp.brush_sides.get? (first + i) with
    | none => rw [hbs] at h; exact absurd h (by simp)
    | some side =>
      rw [hbs] at h
      simp only [] at h
      cases hp : bsp.planes.get? side.plane with
      | none => rw [hp] at h; exact absurd h (by simp)
      | some plane =>
        rw [hp] at h
        simp only [] at h
        split at h
        · -- early return
          simp only [Option.some.injEq] at h
          subst h
          exact absurd hres (by simp)
        · split at h
          · -- continue branch: state fields untouched
            exact ih (i + 1) _ res st2 h hres hle hcond
          · split at h
            · -- enter branch: possible simultaneous update of enterfrac and hitplane
              split at h
              · -- update taken
                refine ih (i + 1) _ res st2 h hres ?_ ?_
                · rename_i hupd
                  exact le_of_lt (lt_of_le_of_lt hle hupd)
                · rename_i hupd
                  intro _
                  refine ⟨Int.ofNat_nonneg side.plane, ?_⟩
                  simpa using hv side (List.get?_mem hbs)
              · -- update skipped
                exact ih (i + 1) _ res st2 h hres hle hcond
            · -- exit branch: enterfrac and hitplane untouched either way
              split at h
              · exact ih (i + 1) _ res st2 h hres hle hcond
              · exact ih (i + 1) _ res st2 h hres hle hcond

/-- In `trace_brush`, the invariant "a fraction below 1 comes with a hit plane
that is a valid non-negative plane index" is preserved: the fraction and hit
plane are only ever written together, from a `hitplane` that the side loop
guarantees valid. -/
theorem trace_brush_plane_valid (bsp : BspFile)
    (hv : ∀ side ∈ bsp.brush_sides, side.plane < bsp.planes.length)
    (bidx : Nat) (s e : Vec3) (fa : ℚ) (ext : Option Vec3) (tr tr2 : Trace) :
    trace_brush bsp bidx s e fa ext tr = some tr2 →
    (tr.fraction < 1 → 0 ≤ tr.plane ∧ tr.plane.toNat < bsp.planes.length) →
    (tr2.fraction < 1 → 0 ≤ tr2.plane ∧ tr2.plane.toNat < bsp.planes.length) := by
  intro h hP
  rw [trace_brush] at h
  cases hb : bsp.brushes.get? bidx with
  | none => rw [hb] at h; exact absurd h (by simp)
  | some brush =>
    rw [hb] at h
    simp only [] at h
    by_cases hn : brush.num_brush_sides = 0
    · rw [if_pos hn] at h
      simp only [Option.some.injEq] at h
      subst h
      exact hP
    · rw [if_neg hn] at h
      cases hloop : trace_brush_loop bsp brush.first_brush_side s e ext
          brush.num_brush_sides 0 initBrushState with
      | none => rw [hloop] at h; exact absurd h (by simp)
      | some res =>
        rw [hloop] at h
        cases res with
        | none =>
          simp only [Option.some.injEq] at h
          subst h
          exact hP
        | some stf =>
          obtain ⟨-, hvalid⟩ := trace_brush_loop_hitplane bsp hv
            brush.first_brush_side s e ext brush.num_brush_sides 0 initBrushState
            (some stf) stf hloop rfl (le_refl _)
            (fun hx => absurd hx (lt_irrefl _))
          simp only [] at h
          split at h
          · -- start-solid branch: fraction and plane untouched
            simp only [Option.some.injEq] at h
            subst h
            exact hP
          · split at h
            · split at h
              · -- joint update of fraction and plane
                simp only [Option.some.injEq] at h
                subst h
                rename_i hc
                exact fun _ => hvalid hc.1
              · simp only [Option.some.injEq] at h
                subst h
                exact hP
            · simp only [Option.some.injEq] at h
              subst h
              exact hP

/-- The brush loop of `trace_leaf` preserves the fraction/plane validity
invariant. -/
theorem trace_leaf_loop_plane (bsp : BspFile)
    (hv : ∀ side ∈ bsp.brush_sides, side.plane < bsp.planes.length)
    (first mask : Nat) (s e : Vec3) (fa : ℚ) (ext : Option Vec3) :
    ∀ (k i : Nat) (st st2 : TraceSt),
      trace_leaf_loop bsp first mask s e fa ext k i st = some st2 →
      (st.trace.fraction < 1 →
        0 ≤ st.trace.plane ∧ st.trace.plane.toNat < bsp.planes.length) →
      (st2.trace.fraction < 1 →
        0 ≤ st2.trace.plane ∧ st2.trace.plane.toNat < bsp.planes.length) := by
  intro k
  induction k with
  | zero =>
    intro i st st2 h hP
    rw [trace_leaf_loop] at h
    simp only [Option.some.injEq] at h
    subst h
    exact hP
  | succ k ih =>
    intro i st st2 h hP
    rw [trace_leaf_loop] at h
    cases hlb : bsp.leaf_brushes.get? (first + i) with
    | none => rw [hlb] at h; exact absurd h (by simp)
    | some bidx =>
      rw [hlb] at h
      simp only [] at h
      by_cases hch : bidx ∈ st.checked
      · rw [if_pos hch] at h
        exact ih (i + 1) st st2 h hP
      · rw [if_neg hch] at h
        cases hbr : bsp.brushes.get? bidx with
        | none => rw [hbr] at h; exact absurd h (by simp)
        | some brush =>
          rw [hbr] at h
          simp only [] at h
          by_cases hmask : brush.contents &&& mask = 0
          · rw [if_pos hmask] at h
            simp only [Option.some.injEq] at h
            subst h
            exact hP
          · rw [if_neg hmask] at h
            cases htb : trace_brush bsp bidx s e fa ext st.trace with
            | none => rw [htb] at h; exact absurd h (by simp)
            | some tr =>
              rw [htb] at h
              simp only [] at h
              have hP2 := trace_brush_plane_valid bsp hv bidx s e fa ext st.trace tr htb hP
              by_cases hle : tr.fraction ≤ 0
              · rw [if_pos hle] at h
                simp only [Option.some.injEq] at h
                subst h
                exact hP2
              · rw [if_neg hle] at h
                exact ih (i + 1) _ st2 h hP2

/-- `trace_leaf` preserves the fraction/plane validity invariant. -/
theorem trace_leaf_plane (bsp : BspFile)
    (hv : ∀ side ∈ bsp.brush_sides, side.plane < bsp.planes.length)
    (leafIdx mask : Nat) (s e : Vec3) (fa : ℚ) (ext : Option Vec3) (st st2 : TraceSt) :
    trace_leaf bsp leafIdx mask s e fa ext st = some st2 →
    (st.trace.fraction < 1 →
      0 ≤ st.trace.plane ∧ st.trace.plane.toNat < bsp.planes.length) →
    (st2.trace.fraction < 1 →
      0 ≤ st2.trace.plane ∧ st2.trace.plane.toNat < bsp.planes.length) := by
  intro h hP
  rw [trace_leaf] at h
  cases hlv : bsp.leaves.get? leafIdx with
  | none => rw [hlv] at h; exact absurd h (by simp)
  | some leaf =>
    rw [hlv] at h
    simp only [] at h
    by_cases hmask : leaf.contents &&& mask = 0
    · rw [if_pos hmask] at h
      simp only [Option.some.injEq] at h
      subst h
      exact hP
    · rw [if_neg hmask] at h
      exact trace_leaf_loop_plane bsp hv leaf.first_leaf_brush mask s e fa ext
        leaf.num_leaf_brushes 0 st st2 h hP

/-- The recursive tree walk preserves the fraction/plane validity invariant. -/
theorem recursive_trace_plane (bsp : BspFile)
    (hv : ∀ side ∈ bsp.brush_sides, side.plane < bsp.planes.length)
    (mask : Nat) (p1f p2f : ℚ) (s e : Vec3) (fa : ℚ) (ext : Option Vec3) :
    ∀ (fuel : Nat) (node : Int) (st st2 : TraceSt),
      recursive_trace bsp mask p1f p2f s e fa ext fuel node st = some st2 →
      (st.trace.fraction < 1 →
        0 ≤ st.trace.plane ∧ st.trace.plane.toNat < bsp.planes.length) →
      (st2.trace.fraction < 1 →
        0 ≤ st2.trace.plane ∧ st2.trace.plane.toNat < bsp.planes.length) := by
  intro fuel
  induction fuel with
  | zero =>
    intro node st st2 h
    rw [recursive_trace] at h
    exact absurd h (by simp)
  | succ fuel ih =>
    intro node st st2 h hP
    rw [recursive_trace] at h
    by_cases hle : st.trace.fraction ≤ p1f
    · rw [if_pos hle] at h
      simp only [Option.some.injEq] at h
      subst h
      exact hP
    · rw [if_neg hle] at h
      by_cases hneg : node < 0
      · rw [if_pos hneg] at h
        exact trace_leaf_plane bsp hv (-node - 1).toNat mask s e fa ext st st2 h hP
      · rw [if_neg hneg] at h
        cases hnd : bsp.nodes.get? node.toNat with
        | none => rw [hnd] at h; exact absurd h (by simp)
        | some nd =>
          rw [hnd] at h
          simp only [] at h
          cases hpl : bsp.planes.get? nd.plane with
          | none => rw [hpl] at h; exact absurd h (by simp)
          | some plane =>
            rw [hpl] at h
            simp only [] at h
            split at h
            · exact ih nd.front_child st st2 h hP
            · split at h
              · exact ih nd.back_child st st2 h hP
              · cases hfront : recursive_trace bsp mask p1f p2f s e fa ext fuel
                    nd.front_child st with
                | none => rw [hfront] at h; exact absurd h (by simp)
                | some st1 =>
                  rw [hfront] at h
                  simp only [] at h
                  exact ih nd.back_child st1 st2 h (ih nd.front_child st st1 hfront hP)

/-- The final end-position fix-up of a trace changes neither its fraction nor
its hit plane. -/
theorem finishTrace_fraction_plane (s e : Vec3) (t : Trace) :
    (finishTrace s e t).fraction = t.fraction ∧ (finishTrace s e t).plane = t.plane := by
  rw [finishTrace]
  split <;> exact ⟨rfl, rfl⟩

/-- Common core of claim C10 for both public entry points: a finished trace
built from a `recursive_trace` run that started at the fresh initial state
(fraction 1, plane −1) and ended with fraction below 1 carries a
non-negative, in-bounds plane index; the `trace_move` lookup on it succeeds.
Parametric in the optional box extents, so it covers the box and line
variants alike. -/
theorem trace_plane_valid_aux (bsp : BspFile) (mask : Nat) (s e : Vec3)
    (ext : Option Vec3) (node : Int) (st1 : TraceSt)
    (hv : ∀ side ∈ bsp.brush_sides, side.plane < bsp.planes.length)
    (hrec : recursive_trace bsp mask 0 1 s e 0 ext (traceFuel bsp) node
      ⟨[], [], initTrace⟩ = some st1)
    (hfr : (finishTrace s e st1.trace).fraction < 1) :
    0 ≤ (finishTrace s e st1.trace).plane ∧
      (finishTrace s e st1.trace).plane.toNat < bsp.planes.length ∧
      (if 0 ≤ (finishTrace s e st1.trace).plane
        then bsp.planes.get? (finishTrace s e st1.trace).plane.toNat
        else none).isSome = true := by
  have hP := recursive_trace_plane bsp hv mask 0 1 s e 0 ext (traceFuel bsp)
    node ⟨[], [], initTrace⟩ st1 hrec
    (fun hx => absurd hx (by norm_num [initTrace]))
  obtain ⟨hfp, hpp⟩ := finishTrace_fraction_plane s e st1.trace
  rw [hfp] at hfr
  obtain ⟨hge, hbound⟩ := hP hfr
  rw [hpp]
  refine ⟨hge, hbound, ?_⟩
  rw [if_pos hge, List.get?_eq_getElem?]
  simp [hbound]

/-- Claim C10: after any `boxtrace` or `linetrace` whose fraction is strictly
below 1, the returned plane is a non-negative index stored together with that
fraction by `trace_brush`, and — for a level whose brush sides all reference
valid planes — the exact plane-table lookup that `trace_move` performs after
a partial trace succeeds (it never sees the −1 sentinel and stays in
bounds). -/
theorem C10_partial_trace_plane (bsp : BspFile) (mask : Nat) (s e : Vec3) (ext : Vec3)
    (trB trL : Trace)
    (hv : ∀ side ∈ bsp.brush_sides, side.plane < bsp.planes.length) :
    (boxtrace bsp mask s e ext = some trB → trB.fraction < 1 →
      0 ≤ trB.plane ∧ trB.plane.toNat < bsp.planes.length ∧
      (if 0 ≤ trB.plane then bsp.planes.get? trB.plane.toNat else none).isSome = true) ∧
    (linetrace bsp mask s e = some trL → trL.fraction < 1 →
      0 ≤ trL.plane ∧ trL.plane.toNat < bsp.planes.length ∧
      (if 0 ≤ trL.plane then bsp.planes.get? trL.plane.toNat else none).isSome = true) := by
  constructor
  · intro h hfr
    rw [boxtrace] at h
    cases hb : boxtraceSt bsp mask s e ext with
    | none => rw [hb] at h; exact absurd h (by simp)
    | some stf =>
      rw [hb] at h
      simp only [Option.map_some', Option.some.injEq] at h
      subst h
      rw [boxtraceSt] at hb
      cases hsm : bsp.submodels.get? 0 with
      | none => rw [hsm] at hb; exact absurd hb (by simp)
      | some sm =>
        rw [hsm] at hb
        simp only [] at hb
        cases hrec : recursive_trace bsp mask 0 1 s e 0 (some ext) (traceFuel bsp)
            (Int.ofNat sm.headnode) ⟨[], [], initTrace⟩ with
        | none => rw [hrec] at hb; exact absurd hb (by simp)
        | some st1 =>
          rw [hrec] at hb
          simp only [Option.some.injEq] at hb
          subst hb
          exact trace_plane_valid_aux bsp mask s e (some ext)
            (Int.ofNat sm.headnode) st1 hv hrec hfr
  · intro h hfr
    rw [linetrace] at h
    cases hb : linetraceSt bsp mask s e with
    | none => rw [hb] at h; exact absurd h (by simp)
    | some stf =>
      rw [hb] at h
      simp only [Option.map_some', Option.some.injEq] at h
      subst h
      rw [linetraceSt] at hb
      cases hsm : bsp.submodels.get? 0 with
      | none => rw [hsm] at hb; exact absurd hb (by simp)
      | some sm =>
        rw [hsm] at hb
        simp only [] at hb
        cases hrec : recursive_trace bsp mask 0 1 s e 0 none (traceFuel bsp)
            (Int.ofNat sm.headnode) ⟨[], [], initTrace⟩ with
        | none => rw [hrec] at hb; exact absurd hb (by simp)
        | some st1 =>
          rw [hrec] at hb
          simp only [Option.some.injEq] at hb
          subst hb
          exact trace_plane_valid_aux bsp mask s e none
            (Int.ofNat sm.headnode) st1 hv hrec hfr

/-- Concrete line-trace run for the C10 witness: the line from (10,0,0) to
the origin stays in the front leaf and hits the slab brush at fraction
499/1000 against plane 1. -/
theorem slab_linetraceSt_eval :
    linetraceSt slabBsp 3 ⟨10, 0, 0⟩ ⟨0, 0, 0⟩ =
      some ⟨[0], [0], ⟨false, false, 499 / 1000, ⟨501 / 100, 0, 0⟩, 1⟩⟩ := by
  norm_num [linetraceSt, recursive_trace, trace_leaf, trace_leaf_loop, trace_brush,
    trace_brush_loop, sideDist, nodeDist, dot, initBrushState, initTrace, qF32MIN,
    DIST_EPSILON, traceFuel, finishTrace, vadd, vsub, vscale, slabBsp]

/-- Witness for claim C10: the partial slab box trace (fraction 399/1000) and
the partial slab line trace (fraction 499/1000) both carry plane index 1,
which is non-negative, in bounds, and found by the exact lookup `trace_move`
performs. -/
theorem C10_partial_trace_plane_witness :
    (0 ≤ (Trace.mk false false (399 / 1000) ⟨601 / 100, 0, 0⟩ 1).plane ∧
      (Trace.mk false false (399 / 1000) ⟨601 / 100, 0, 0⟩ 1).plane.toNat <
        slabBsp.planes.length ∧
      (if 0 ≤ (Trace.mk false false (399 / 1000) ⟨601 / 100, 0, 0⟩ 1).plane
        then slabBsp.planes.get?
          (Trace.mk false false (399 / 1000) ⟨601 / 100, 0, 0⟩ 1).plane.toNat
        else none).isSome = true) ∧
    (0 ≤ (Trace.mk false false (499 / 1000) ⟨501 / 100, 0, 0⟩ 1).plane ∧
      (Trace.mk false false (499 / 1000) ⟨501 / 100, 0, 0⟩ 1).plane.toNat <
        slabBsp.planes.length ∧
      (if 0 ≤ (Trace.mk false false (499 / 1000) ⟨501 / 100, 0, 0⟩ 1).plane
        then slabBsp.planes.get?
          (Trace.mk false false (499 / 1000) ⟨501 / 100, 0, 0⟩ 1).plane.toNat
        else none).isSome = true) := by
  have hbox : boxtrace slabBsp 3 ⟨10, 0, 0⟩ ⟨0, 0, 0⟩ ⟨1, 1, 1⟩ =
      some ⟨false, false, 399 / 1000, ⟨601 / 100, 0, 0⟩, 1⟩ := by
    rw [boxtrace, slab_boxtraceSt_eval]
    rfl
  have hline : linetrace slabBsp 3 ⟨10, 0, 0⟩ ⟨0, 0, 0⟩ =
      some ⟨false, false, 499 / 1000, ⟨501 / 100, 0, 0⟩, 1⟩ := by
    rw [linetrace, slab_linetraceSt_eval]
    rfl
  have h := C10_partial_trace_plane slabBsp 3 ⟨10, 0, 0⟩ ⟨0, 0, 0⟩ ⟨1, 1, 1⟩
    ⟨false, false, 399 / 1000, ⟨601 / 100, 0, 0⟩, 1⟩
    ⟨false, false, 499 / 1000, ⟨501 / 100, 0, 0⟩, 1⟩
    (by
      intro side hs
      have hside : side = ⟨1⟩ := by simpa [slabBsp] using hs
      rw [hside]
      norm_num [slabBsp])
  exact ⟨h.1 hbox (by norm_num), h.2 hline (by norm_num)⟩

/-- The side loop of `trace_brush` reads only planes and brush sides: the vis
data and the texture-info surface flags are irrelevant to it. -/
theorem trace_brush_loop_tex (pl : List Plane) (nd : List Node) (lv : List Leaf)
    (lb : List Nat) (br : List Brush) (bs : List BrushSide) (sm : List SubModel)
    (v1 v2 : VisLump) (t1 t2 : List Nat) (first : Nat) (s e : Vec3) (ext : Option Vec3) :
    ∀ (k i : Nat) (st : BrushState),
      trace_brush_loop ⟨pl, nd, lv, lb, br, bs, sm, v1, t1⟩ first s e ext k i st =
        trace_brush_loop ⟨pl, nd, lv, lb, br, bs, sm, v2, t2⟩ first s e ext k i st := by
  intro k
  induction k with
  | zero => intro i st; rfl
  | succ k ih =>
    intro i st
    rw [trace_brush_loop, trace_brush_loop]
    simp only []
    cases bs.get? (first + i) with
    | none => rfl
    | some side =>
      simp only []
      cases pl.get? side.plane with
      | none => rfl
      | some plane =>
        simp only []
        split
        · rfl
        · split
          · exact ih (i + 1) _
          · split
            · exact ih (i + 1) _
            · exact ih (i + 1) _

/-- `trace_brush` is independent of the vis data and texture flags. -/
theorem trace_brush_tex (pl : List Plane) (nd : List Node) (lv : List Leaf)
    (lb : List Nat) (br : List Brush) (bs : List BrushSide) (sm : List SubModel)
    (v1 v2 : VisLump) (t1 t2 : List Nat) (bidx : Nat) (s e : Vec3) (fa : ℚ)
    (ext : Option Vec3) (tr : Trace) :
    trace_brush ⟨pl, nd, lv, lb, br, bs, sm, v1, t1⟩ bidx s e fa ext tr =
      trace_brush ⟨pl, nd, lv, lb, br, bs, sm, v2, t2⟩ bidx s e fa ext tr := by
  rw [trace_brush, trace_brush]
  simp only []
  cases br.get? bidx with
  | none => rfl
  | some brush =>
    simp only []
    split
    · rfl
    · rw [trace_brush_loop_tex pl nd lv lb br bs sm v1 v2 t1 t2]

/-- The brush loop of `trace_leaf` is independent of the vis data and texture
flags. -/
theorem trace_leaf_loop_tex (pl : List Plane) (nd : List Node) (lv : List Leaf)
    (lb : List Nat) (br : List Brush) (bs : List BrushSide) (sm : List SubModel)
    (v1 v2 : VisLump) (t1 t2 : List Nat) (first mask : Nat) (s e : Vec3) (fa : ℚ)
    (ext : Option Vec3) :
    ∀ (k i : Nat) (st : TraceSt),
      trace_leaf_loop ⟨pl, nd, lv, lb, br, bs, sm, v1, t1⟩ first mask s e fa ext k i st =
        trace_leaf_loop ⟨pl, nd, lv, lb, br, bs, sm, v2, t2⟩ first mask s e fa ext k i st := by
  intro k
  induction k with
  | zero => intro i st; rfl
  | succ k ih =>
    intro i st
    rw [trace_leaf_loop, trace_leaf_loop]
    simp only []
    cases lb.get? (first + i) with
    | none => rfl
    | some bidx =>
      simp only []
      split
      · exact ih (i + 1) st
      · cases br.get? bidx with
        | none => rfl
        | some brush =>
          simp only []
          split
          · rfl
          · rw [trace_brush_tex pl nd lv lb br bs sm v1 v2 t1 t2]
            cases trace_brush ⟨pl, nd, lv, lb, br, bs, sm, v2, t2⟩ bidx s e fa ext st.trace with
            | none => rfl
            | some tr =>
              simp only []
              split
              · rfl
              · exact ih (i + 1) _

/-- `trace_leaf` is independent of the vis data and texture flags. -/
theorem trace_leaf_tex (pl : List Plane) (nd : List Node) (lv : List Leaf)
    (lb : List Nat) (br : List Brush) (bs : List BrushSide) (sm : List SubModel)
    (v1 v2 : VisLump) (t1 t2 : List Nat) (leafIdx mask : Nat) (s e : Vec3) (fa : ℚ)
    (ext : Option Vec3) (st : TraceSt) :
    trace_leaf ⟨pl, nd, lv, lb, br, bs, sm, v1, t1⟩ leafIdx mask s e fa ext st =
      trace_leaf ⟨pl, nd, lv, lb, br, bs, sm, v2, t2⟩ leafIdx mask s e fa ext st := by
  rw [trace_leaf, trace_leaf]
  simp only []
  cases lv.get? leafIdx with
  | none => rfl
  | some leaf =>
    simp only []
    split
    · rfl
    · rw [trace_leaf_loop_tex pl nd lv lb br bs sm v1 v2 t1 t2]

/-- The recursive tree walk is independent of the vis data and texture
flags. -/
theorem recursive_trace_tex (pl : List Plane) (nd : List Node) (lv : List Leaf)
    (lb : List Nat) (br : List Brush) (bs : List BrushSide) (sm : List SubModel)
    (v1 v2 : VisLump) (t1 t2 : List Nat) (mask : Nat) (p1f p2f : ℚ) (s e : Vec3)
    (fa : ℚ) (ext : Option Vec3) :
    ∀ (fuel : Nat) (node : Int) (st : TraceSt),
      recursive_trace ⟨pl, nd, lv, lb, br, bs, sm, v1, t1⟩ mask p1f p2f s e fa ext
          fuel node st =
        recursive_trace ⟨pl, nd, lv, lb, br, bs, sm, v2, t2⟩ mask p1f p2f s e fa ext
          fuel node st := by
  intro fuel
  induction fuel with
  | zero => intro node st; rfl
  | succ fuel ih =>
    intro node st
    rw [recursive_trace, recursive_trace]
    simp only []
    split
    · rfl
    · split
      · rw [trace_leaf_tex pl nd lv lb br bs sm v1 v2 t1 t2]
      · cases nd.get? node.toNat with
        | none => rfl
        | some node2 =>
          simp only []
          cases pl.get? node2.plane with
          | none => rfl
          | some plane =>
            simp only []
            split
            · exact ih node2.front_child st
            · split
              · exact ih node2.back_child st
              · rw [ih node2.front_child st]
                cases recursive_trace ⟨pl, nd, lv, lb, br, bs, sm, v2, t2⟩ mask p1f p2f
                    s e fa ext fuel node2.front_child st with
                | none => rfl
                | some st1 => exact ih node2.back_child st1

/-- Claim C9: trace results do not depend on rendering-only surface data.
For two loaded levels identical in their planes, nodes, leaves, leaf-brush
table, brushes, brush sides and submodels — but differing arbitrarily in
their texture-info surface flags (sky, warp, translucency, no-draw), and for
that matter in their vis data — `boxtrace` and `linetrace` return identical
results for every query. -/
theorem C9_tex_flags_irrelevant (A B : BspFile)
    (hpl : A.planes = B.planes) (hnd : A.nodes = B.nodes) (hlv : A.leaves = B.leaves)
    (hlb : A.leaf_brushes = B.leaf_brushes) (hbr : A.brushes = B.brushes)
    (hbs : A.brush_sides = B.brush_sides) (hsm : A.submodels = B.submodels)
    (mask : Nat) (s e : Vec3) (ext : Vec3) :
    boxtrace A mask s e ext = boxtrace B mask s e ext ∧
      linetrace A mask s e = linetrace B mask s e := by
  obtain ⟨pl, nd, lv, lb, br, bs, sm, v1, t1⟩ := A
  obtain ⟨pl2, nd2, lv2, lb2, br2, bs2, sm2, v2, t2⟩ := B
  simp only [] at hpl hnd hlv hlb hbr hbs hsm
  subst hpl hnd hlv hlb hbr hbs hsm
  constructor
  · rw [boxtrace, boxtrace, boxtraceSt, boxtraceSt]
    simp only []
    cases sm.get? 0 with
    | none => rfl
    | some sub =>
      simp only []
      rw [show traceFuel ⟨pl, nd, lv, lb, br, bs, sm, v1, t1⟩ =
          traceFuel ⟨pl, nd, lv, lb, br, bs, sm, v2, t2⟩ from rfl,
        recursive_trace_tex pl nd lv lb br bs sm v1 v2 t1 t2]
  · rw [linetrace, linetrace, linetraceSt, linetraceSt]
    simp only []
    cases sm.get? 0 with
    | none => rfl
    | some sub =>
      simp only []
      rw [show traceFuel ⟨pl, nd, lv, lb, br, bs, sm, v1, t1⟩ =
          traceFuel ⟨pl, nd, lv, lb, br, bs, sm, v2, t2⟩ from rfl,
        recursive_trace_tex pl nd lv lb br bs sm v1 v2 t1 t2]

/-- Witness for claim C9: the slab world and its copy with different surface
flags give the same box trace. -/
theorem C9_tex_flags_irrelevant_witness :
    boxtrace slabBsp 3 ⟨10, 0, 0⟩ ⟨0, 0, 0⟩ ⟨1, 1, 1⟩ =
      boxtrace slabBsp2 3 ⟨10, 0, 0⟩ ⟨0, 0, 0⟩ ⟨1, 1, 1⟩ :=
  (C9_tex_flags_irrelevant slabBsp slabBsp2 rfl rfl rfl rfl rfl rfl rfl
    3 ⟨10, 0, 0⟩ ⟨0, 0, 0⟩ ⟨1, 1, 1⟩).1

end Reverie
